import Mathlib

/-!
Verification of the AGENTS.md parser, validator, discovery client and cache
(TypeScript sources: `parsers/typescript/src/parser.ts`, `validator.ts`,
`fetcher.ts`, and the `PolicyCache` example in `docs/for-agent-developers.md`).

Strings are modelled as `List Char` (the TypeScript code operates on UTF-16
strings; all characters relevant to the policy grammar are plain code points,
which `Char` represents faithfully).  JavaScript `number` values produced by
`parseInt` are modelled as exact `Int`: the parser immediately rejects any
value whose decimal re-stringification differs from the trimmed input, so the
only accepted values are canonical decimal strings, for which the exact-integer
model and IEEE doubles agree below 2^53; inputs at or above 2^53 are outside
the intended domain of rate limits and trust levels.
-/

namespace AgentsMd

/-- A string, modelled as its list of characters. -/
abbrev Str := List Char

/-- Coerce a Lean string literal to the model's string type. -/
def sLit (st : String) : Str := st.data

/-- JavaScript whitespace (`\s`, and the set trimmed by `String.prototype.trim`
and skipped by `parseInt`): ASCII whitespace plus the Unicode space
separators, NBSP, BOM and the line/paragraph separators. -/
def jsIsWs (c : Char) : Bool :=
  c = ' ' ∨ c = '\t' ∨ c = '\n' ∨ c.toNat = 0x0b ∨ c.toNat = 0x0c ∨ c = '\r' ∨
  c.toNat = 0xa0 ∨ c.toNat = 0x1680 ∨ (0x2000 ≤ c.toNat ∧ c.toNat ≤ 0x200a) ∨
  c.toNat = 0x2028 ∨ c.toNat = 0x2029 ∨ c.toNat = 0x202f ∨ c.toNat = 0x205f ∨
  c.toNat = 0x3000 ∨ c.toNat = 0xfeff

/-- `String.prototype.trim`: drop leading and trailing whitespace. -/
def trimL (l : Str) : Str :=
  ((l.dropWhile jsIsWs).reverse.dropWhile jsIsWs).reverse

/-- `String.prototype.toLowerCase`, restricted to ASCII (every key compared by
the parser is ASCII). -/
def toLowerL (l : Str) : Str := l.map Char.toLower

/-- `String.prototype.split` on a single-character separator. -/
def splitOnSep (sep : Char) : Str → List Str
  | [] => [[]]
  | c :: rest =>
    let r := splitOnSep sep rest
    if c = sep then [] :: r
    else
      match r with
      | [] => [[c]]
      | x :: xs => (c :: x) :: xs

/-- `content.split(/\r?\n/)`, first step: split on `'\n'`. -/
def splitNewline (l : Str) : List Str := splitOnSep '\n' l

/-- `content.split(/\r?\n/)`, second step: a `'\r'` immediately before each
consumed `'\n'` (i.e. at the end of every piece but the last) belongs to the
separator and is removed. -/
def stripCRs : List Str → List Str
  | [] => []
  | [x] => [x]
  | x :: xs =>
    (if x.getLast? = some '\r' then x.dropLast else x) :: stripCRs xs

/-- `content.split(/\r?\n/)`. -/
def splitLines (content : Str) : List Str := stripCRs (splitNewline content)

/-- Insertion-ordered map with `Map.set` semantics: an existing key is updated
in place, a new key is appended (JavaScript `Map` and plain-object key order). -/
def mapSet {α : Type} (m : List (Str × α)) (k : Str) (v : α) : List (Str × α) :=
  if m.any (fun p => p.1 = k) then
    m.map (fun p => if p.1 = k then (k, v) else p)
  else m ++ [(k, v)]

/-- `Map.get` / property lookup. -/
def mapGet {α : Type} (m : List (Str × α)) (k : Str) : Option α :=
  (m.find? (fun p => p.1 = k)).map Prod.snd

/-- Raw key/value directives of one section (`SectionData` in the source). -/
abbrev SectionData := List (Str × Str)

/-- Index of the first occurrence of a character, `String.prototype.indexOf`. -/
def idxOf (c : Char) : Str → Option Nat
  | [] => none
  | x :: xs =>
    if x = c then some 0
    else (idxOf c xs).map Nat.succ

/-- One iteration of the loop in `parseKeyValueLines`: skip blank and comment
lines, keep only `- key: value` directive lines, trim and lowercase the key,
trim the value, ignore lines without a colon or with an empty key. -/
def keyValueStep (data : SectionData) (line : Str) : SectionData :=
  let trimmed := trimL line
  if trimmed = [] then data
  else if trimmed.head? = some '#' then data
  else
    match trimmed with
    | '-' :: ' ' :: withoutBullet =>
      match idxOf ':' withoutBullet with
      | none => data
      | some colonIndex =>
        let key := toLowerL (trimL (withoutBullet.take colonIndex))
        let value := trimL (withoutBullet.drop (colonIndex + 1))
        if key ≠ [] then mapSet data key value else data
    | _ => data

/-- `AgentsMdParser.parseKeyValueLines`. -/
def parseKeyValueLines (lines : List Str) : SectionData :=
  lines.foldl keyValueStep []

/-- The heading regex `/^##\s+(.+)$/` followed by `.trim().toLowerCase()` on
the captured group.  The regex matches exactly when the line starts with
`##` followed by a whitespace character and at least one further character;
the captured group, after trimming, coincides with the trim of everything
after `##` (backtracking only moves the `\s+`/`(.+)` boundary inside the
leading whitespace run, which trimming erases). -/
def matchSectionHeading : Str → Option Str
  | '#' :: '#' :: c :: d :: rest =>
    if jsIsWs c then some (toLowerL (trimL (c :: d :: rest))) else none
  | _ => none

/-- The sections map produced by `extractSections`. -/
abbrev SectionsMap := List (Str × SectionData)

/-- `flushSection` from `extractSections`. -/
def flushSection (acc : SectionsMap) : Option Str → List Str → SectionsMap
  | none, _ => acc
  | some name, lines => mapSet acc name (parseKeyValueLines lines)

/-- The line loop of `extractSections`, with the current section name and its
accumulated body lines passed explicitly. -/
def extractLoop : List Str → Option Str → List Str → SectionsMap → SectionsMap
  | [], curName, curLines, acc => flushSection acc curName curLines
  | line :: rest, curName, curLines, acc =>
    match matchSectionHeading line with
    | some name => extractLoop rest (some name) [] (flushSection acc curName curLines)
    | none =>
      match curName with
      | some n => extractLoop rest (some n) (curLines ++ [line]) acc
      | none => extractLoop rest none curLines acc

/-- `AgentsMdParser.extractSections`. -/
def extractSections (content : Str) : SectionsMap :=
  extractLoop (splitLines content) none [] []

/-- A recoverable parse warning (`ParseWarning` in the source; the TS field
`section` is called `sectionName` here because `section` is a Lean keyword). -/
structure ParseWarning where
  sectionName : Str
  message : Str
deriving DecidableEq, Repr

/-- A structural parse error (`ParseError` in the source; the optional `line`
field is never populated by the parser and is omitted). -/
structure ParseError where
  sectionName : Str
  message : Str
deriving DecidableEq, Repr

/-- Warning text pushed by `parseBooleanValue`. -/
def boolWarn (sectionName key raw : Str) : ParseWarning :=
  { sectionName := sectionName,
    message := sLit "Unrecognized boolean value \"" ++ raw ++ sLit "\" for key \"" ++
      key ++ sLit "\". Expected: true/false/yes/no/1/0/on/off." }

/-- `AgentsMdParser.parseBooleanValue`: recognize the eight boolean tokens
case-insensitively; anything else yields `undefined` plus a warning. -/
def parseBooleanValue (raw sectionName key : Str) (ws : List ParseWarning) :
    Option Bool × List ParseWarning :=
  let normalized := trimL (toLowerL raw)
  if [sLit "true", sLit "yes", sLit "1", sLit "on"].contains normalized then (some true, ws)
  else if [sLit "false", sLit "no", sLit "0", sLit "off"].contains normalized then (some false, ws)
  else (none, ws ++ [boolWarn sectionName key raw])

/-- The value component of `parseBooleanValue` (independent of the warning
bookkeeping). -/
def boolCoerce (raw : Str) : Option Bool :=
  (parseBooleanValue raw [] [] []).1

/-- Decimal digit string of a natural number, with explicit fuel so that the
recursion is structural (and hence kernel-computable); `n + 1` units of fuel
always suffice since the argument strictly shrinks under division by ten. -/
def natToDigitsAux (fuel n : Nat) : Str :=
  match fuel with
  | 0 => []
  | fuel + 1 =>
    if n < 10 then [Char.ofNat (48 + n)]
    else natToDigitsAux fuel (n / 10) ++ [Char.ofNat (48 + n % 10)]

/-- Decimal digit string of a natural number (`Number.prototype.toString` for
non-negative integers). -/
def natToDigits (n : Nat) : Str := natToDigitsAux (n + 1) n

/-- `Number.prototype.toString` for integer values. -/
def intToStr (n : Int) : Str :=
  if n < 0 then '-' :: natToDigits n.natAbs else natToDigits n.natAbs

/-- Numeric value of a digit string. -/
def digitsVal (l : Str) : Nat :=
  l.foldl (fun acc c => 10 * acc + (c.toNat - 48)) 0

/-- `parseInt(raw, 10)`: skip leading whitespace, read an optional sign, then
the maximal run of decimal digits; `none` models `NaN` (no digits).  Values
are exact integers (see the header note on IEEE doubles). -/
def parseIntJS (raw : Str) : Option Int :=
  let s := raw.dropWhile jsIsWs
  let signed : Int × Str :=
    match s with
    | [] => (1, [])
    | c :: r => if c = '-' then (-1, r) else if c = '+' then (1, r) else (1, c :: r)
  let ds := signed.2.takeWhile Char.isDigit
  if ds = [] then none else some (signed.1 * (digitsVal ds : Int))

/-- Warning text pushed by `parseIntegerValue`. -/
def intWarn (sectionName key raw : Str) : ParseWarning :=
  { sectionName := sectionName,
    message := sLit "Invalid integer value \"" ++ raw ++ sLit "\" for key \"" ++
      key ++ sLit "\"." }

/-- `AgentsMdParser.parseIntegerValue`: `parseInt` the raw value and reject it
unless re-stringifying the result reproduces the trimmed input exactly. -/
def parseIntegerValue (raw sectionName key : Str) (ws : List ParseWarning) :
    Option Int × List ParseWarning :=
  match parseIntJS raw with
  | none => (none, ws ++ [intWarn sectionName key raw])
  | some parsed =>
    if intToStr parsed ≠ trimL raw then (none, ws ++ [intWarn sectionName key raw])
    else (some parsed, ws)

/-- The value component of `parseIntegerValue`. -/
def intCoerce (raw : Str) : Option Int :=
  (parseIntegerValue raw [] [] []).1

/-- `AgentsMdParser.parseArrayValue`: comma-split, trim, drop empties. -/
def parseArrayValue (raw : Str) : List Str :=
  ((splitOnSep ',' raw).map trimL).filter (fun item => item ≠ [])

/-- `AgentsMdParser.kebabToCamel`: `kebab.replace` of the global pattern
"hyphen followed by a lowercase letter" with the upcased letter — scan
left to right; a hyphen directly followed by a lowercase letter is dropped and
the letter upcased, any other character is kept. -/
def kebabToCamel : Str → Str
  | [] => []
  | '-' :: c :: rest =>
    if 'a' ≤ c ∧ c ≤ 'z' then c.toUpper :: kebabToCamel rest
    else '-' :: kebabToCamel (c :: rest)
  | c :: rest => c :: kebabToCamel rest

/-- `IdentitySection` from `types.ts`. -/
structure IdentitySection where
  site : Str
  contact : Option Str := none
  lastUpdated : Option Str := none
  specVersion : Option Str := none
deriving DecidableEq, Repr

/-- `TrustRequirements` from `types.ts`; the `authentication` union of string
literals is carried as its runtime string. -/
structure TrustRequirements where
  minimumTrustLevel : Int
  authentication : Str
  authenticationMethods : Option (List Str) := none
deriving DecidableEq, Repr

/-- `RateLimits` from `types.ts`. -/
structure RateLimits where
  requestsPerMinute : Option Int := none
  requestsPerHour : Option Int := none
  concurrentSessions : Option Int := none
deriving DecidableEq, Repr

/-- `Partial<DataHandling>` from `types.ts`; enumerated fields are carried as
their runtime strings. -/
structure DataHandling where
  personalDataCollection : Option Str := none
  dataRetention : Option Str := none
  thirdPartySharing : Option Str := none
  gdprCompliance : Option Bool := none
deriving DecidableEq, Repr

/-- `Restrictions` from `types.ts`. -/
structure Restrictions where
  disallowedPaths : List Str
  requireHumanApproval : List Str
  readOnlyPaths : List Str
deriving DecidableEq, Repr

/-- `AgentIdentification` from `types.ts`. -/
structure AgentIdentification where
  requireAgentHeader : Bool
  agentHeaderName : Option Str := none
  requireDisclosure : Bool
deriving DecidableEq, Repr

/-- `AgentsPolicy` from `types.ts`; `allowedActions` is the insertion-ordered
string-to-boolean record. -/
structure AgentsPolicy where
  identity : IdentitySection
  trustRequirements : TrustRequirements
  allowedActions : List (Str × Bool)
  rateLimits : RateLimits
  dataHandling : DataHandling
  restrictions : Restrictions
  agentIdentification : AgentIdentification
deriving DecidableEq, Repr

/-- `ParseResult` from `types.ts`. -/
structure ParseResult where
  success : Bool
  policy : Option AgentsPolicy := none
  errors : List ParseError
  warnings : List ParseWarning
deriving DecidableEq, Repr

/-- `startsWith` on the model's strings. -/
def startsWithL (p l : Str) : Bool := l.take p.length = p

/-- The known-key set of the Identity section. -/
def identityKnownKeys : List Str :=
  [sLit "site", sLit "contact", sLit "last-updated", sLit "spec-version"]

/-- Warning text for an unrecognized key in the Identity section. -/
def identityKeyWarn (key : Str) : ParseWarning :=
  { sectionName := sLit "identity",
    message := sLit "Unrecognized key \"" ++ key ++ sLit "\" in Identity section." }

/-- `AgentsMdParser.parseIdentitySection`: `null` when the `site` key is absent
or empty; optional keys are copied only when truthy (non-empty); unknown keys
without the `x-` extension prefix produce warnings. -/
def parseIdentitySection (data : SectionData) (ws : List ParseWarning) :
    Option IdentitySection × List ParseWarning :=
  match mapGet data (sLit "site") with
  | none => (none, ws)
  | some site =>
    if site = [] ∨ trimL site = [] then (none, ws)
    else
      let id0 : IdentitySection := { site := trimL site }
      let id1 :=
        match mapGet data (sLit "contact") with
        | some c => if c ≠ [] then { id0 with contact := some c } else id0
        | none => id0
      let id2 :=
        match mapGet data (sLit "last-updated") with
        | some lu => if lu ≠ [] then { id1 with lastUpdated := some lu } else id1
        | none => id1
      let id3 :=
        match mapGet data (sLit "spec-version") with
        | some sv => if sv ≠ [] then { id2 with specVersion := some sv } else id2
        | none => id2
      let ws' := data.foldl
        (fun acc p =>
          if identityKnownKeys.contains p.1 ∨ startsWithL (sLit "x-") p.1 then acc
          else acc ++ [identityKeyWarn p.1]) ws
      (some id3, ws')

/-- The Trust Requirements defaults from `parseTrustRequirements`. -/
def trustDefaults : TrustRequirements :=
  { minimumTrustLevel := 0, authentication := sLit "none" }

/-- Warning text for an out-of-range trust level. -/
def clampWarn (level : Int) : ParseWarning :=
  { sectionName := sLit "trust requirements",
    message := sLit "Trust level " ++ intToStr level ++
      sLit " is outside the valid 0-5 range. Clamping to nearest valid value." }

/-- Warning text for an unrecognized authentication value. -/
def authWarn (rawAuth : Str) : ParseWarning :=
  { sectionName := sLit "trust requirements",
    message := sLit "Unrecognized authentication value \"" ++ rawAuth ++
      sLit "\". Expected: required/optional/none." }

/-- `AgentsMdParser.parseTrustRequirements`. -/
def parseTrustRequirements :
    Option SectionData → List ParseWarning → TrustRequirements × List ParseWarning
  | none, ws => (trustDefaults, ws)
  | some data, ws =>
    let s1 : TrustRequirements × List ParseWarning :=
      match mapGet data (sLit "minimum-trust-level") with
      | none => (trustDefaults, ws)
      | some rawLevel =>
        match parseIntegerValue rawLevel (sLit "trust requirements")
            (sLit "minimum-trust-level") ws with
        | (none, ws') => (trustDefaults, ws')
        | (some level, ws') =>
          if level < 0 ∨ level > 5 then
            ({ trustDefaults with minimumTrustLevel := max 0 (min 5 level) },
             ws' ++ [clampWarn level])
          else ({ trustDefaults with minimumTrustLevel := level }, ws')
    let s2 : TrustRequirements × List ParseWarning :=
      match mapGet data (sLit "authentication") with
      | none => s1
      | some rawAuth =>
        let normalized := trimL (toLowerL rawAuth)
        if normalized = sLit "required" ∨ normalized = sLit "optional" ∨
            normalized = sLit "none" then
          ({ s1.1 with authentication := normalized }, s1.2)
        else (s1.1, s1.2 ++ [authWarn rawAuth])
    match mapGet data (sLit "authentication-methods") with
    | none => s2
    | some rawMethods =>
      ({ s2.1 with authenticationMethods := some (parseArrayValue rawMethods) }, s2.2)

/-- The Allowed Actions defaults object, in declaration order (`readContent`
true, all other standard actions false). -/
def allowedActionsDefaults : List (Str × Bool) :=
  [(sLit "readContent", true), (sLit "submitForms", false),
   (sLit "makePurchases", false), (sLit "modifyAccount", false),
   (sLit "accessApi", false), (sLit "downloadFiles", false),
   (sLit "uploadFiles", false), (sLit "sendMessages", false),
   (sLit "deleteData", false), (sLit "createContent", false)]

/-- The kebab-case markdown keys of the ten standard actions (the domain of
`keyMap`). -/
def standardActionKeys : List Str :=
  [sLit "read-content", sLit "submit-forms", sLit "make-purchases",
   sLit "modify-account", sLit "access-api", sLit "download-files",
   sLit "upload-files", sLit "send-messages", sLit "delete-data",
   sLit "create-content"]

/-- `keyMap[rawKey] ?? kebabToCamel(rawKey)` from `parseAllowedActions`. -/
def keyMapLookup (rawKey : Str) : Str :=
  if rawKey = sLit "read-content" then sLit "readContent"
  else if rawKey = sLit "submit-forms" then sLit "submitForms"
  else if rawKey = sLit "make-purchases" then sLit "makePurchases"
  else if rawKey = sLit "modify-account" then sLit "modifyAccount"
  else if rawKey = sLit "access-api" then sLit "accessApi"
  else if rawKey = sLit "download-files" then sLit "downloadFiles"
  else if rawKey = sLit "upload-files" then sLit "uploadFiles"
  else if rawKey = sLit "send-messages" then sLit "sendMessages"
  else if rawKey = sLit "delete-data" then sLit "deleteData"
  else if rawKey = sLit "create-content" then sLit "createContent"
  else kebabToCamel rawKey

/-- One iteration of the entries loop in `parseAllowedActions`. -/
def allowedActionsStep (acc : List (Str × Bool) × List ParseWarning)
    (kv : Str × Str) : List (Str × Bool) × List ParseWarning :=
  let camelKey := keyMapLookup kv.1
  match parseBooleanValue kv.2 (sLit "allowed actions") kv.1 acc.2 with
  | (some b, ws') => (mapSet acc.1 camelKey b, ws')
  | (none, ws') => (acc.1, ws')

/-- `AgentsMdParser.parseAllowedActions`. -/
def parseAllowedActions :
    Option SectionData → List ParseWarning → List (Str × Bool) × List ParseWarning
  | none, ws => (allowedActionsDefaults, ws)
  | some data, ws => data.foldl allowedActionsStep (allowedActionsDefaults, ws)

/-- One directive of the Rate Limits section: the field value (absent when
the directive is absent or fails integer coercion) and the warnings this
directive alone contributes. -/
def rateLimitField (data : SectionData) (key : Str) :
    Option Int × List ParseWarning :=
  match mapGet data key with
  | none => (none, [])
  | some raw => parseIntegerValue raw (sLit "rate limits") key []

/-- `AgentsMdParser.parseRateLimits`.  The source reads the three directives
in order, each pushing its own warnings onto the shared array and setting its
own field only on success, so the result is the three independent
`rateLimitField` reads with their warnings appended in order. -/
def parseRateLimits :
    Option SectionData → List ParseWarning → RateLimits × List ParseWarning
  | none, ws => ({}, ws)
  | some data, ws =>
    let rpm := rateLimitField data (sLit "requests-per-minute")
    let rph := rateLimitField data (sLit "requests-per-hour")
    let cs := rateLimitField data (sLit "concurrent-sessions")
    ({ requestsPerMinute := rpm.1, requestsPerHour := rph.1,
       concurrentSessions := cs.1 },
     ws ++ rpm.2 ++ rph.2 ++ cs.2)

/-- Warning text for an enumerated Data Handling field. -/
def dataHandlingWarn (field raw expected : Str) : ParseWarning :=
  { sectionName := sLit "data handling",
    message := sLit "Unrecognized " ++ field ++ sLit " value \"" ++ raw ++
      sLit "\". Expected: " ++ expected ++ sLit "." }

/-- `AgentsMdParser.parseDataHandling`. -/
def parseDataHandling :
    Option SectionData → List ParseWarning → DataHandling × List ParseWarning
  | none, ws => ({}, ws)
  | some data, ws =>
    let s1 : DataHandling × List ParseWarning :=
      match mapGet data (sLit "personal-data-collection") with
      | none => ({}, ws)
      | some rawCollection =>
        let normalized := trimL (toLowerL rawCollection)
        if [sLit "none", sLit "minimal", sLit "standard",
            sLit "extensive"].contains normalized then
          ({ personalDataCollection := some normalized }, ws)
        else
          ({}, ws ++ [dataHandlingWarn (sLit "personal-data-collection") rawCollection
            (sLit "none/minimal/standard/extensive")])
    let s2 : DataHandling × List ParseWarning :=
      match mapGet data (sLit "data-retention") with
      | none => s1
      | some rawRetention =>
        let normalized := trimL (toLowerL rawRetention)
        if [sLit "none", sLit "session-only", sLit "30-days", sLit "1-year",
            sLit "indefinite"].contains normalized then
          ({ s1.1 with dataRetention := some normalized }, s1.2)
        else
          (s1.1, s1.2 ++ [dataHandlingWarn (sLit "data-retention") rawRetention
            (sLit "none/session-only/30-days/1-year/indefinite")])
    let s3 : DataHandling × List ParseWarning :=
      match mapGet data (sLit "third-party-sharing") with
      | none => s2
      | some rawSharing =>
        let normalized := trimL (toLowerL rawSharing)
        if [sLit "none", sLit "anonymized", sLit "with-consent",
            sLit "unrestricted"].contains normalized then
          ({ s2.1 with thirdPartySharing := some normalized }, s2.2)
        else
          (s2.1, s2.2 ++ [dataHandlingWarn (sLit "third-party-sharing") rawSharing
            (sLit "none/anonymized/with-consent/unrestricted")])
    match mapGet data (sLit "gdpr-compliance") with
    | none => s3
    | some rawGdpr =>
      match parseBooleanValue rawGdpr (sLit "data handling") (sLit "gdpr-compliance") s3.2 with
      | (none, ws') => (s3.1, ws')
      | (some v, ws') => ({ s3.1 with gdprCompliance := some v }, ws')

/-- Warning text for a restriction path without a leading slash. -/
def pathWarn (path : Str) : ParseWarning :=
  { sectionName := sLit "restrictions",
    message := sLit "Path pattern \"" ++ path ++
      sLit "\" does not start with \"/\". Path patterns should be absolute paths." }

/-- `parsePaths` inside `parseRestrictions` (`!raw` truthiness: absent or
empty yields the empty list). -/
def parsePaths : Option Str → List Str
  | none => []
  | some raw => if raw = [] then [] else parseArrayValue raw

/-- `AgentsMdParser.parseRestrictions`. -/
def parseRestrictions :
    Option SectionData → List ParseWarning → Restrictions × List ParseWarning
  | none, ws => (⟨[], [], []⟩, ws)
  | some data, ws =>
    let restrictions : Restrictions :=
      { disallowedPaths := parsePaths (mapGet data (sLit "disallowed-paths")),
        requireHumanApproval := parsePaths (mapGet data (sLit "require-human-approval")),
        readOnlyPaths := parsePaths (mapGet data (sLit "read-only-paths")) }
    let allPaths := restrictions.disallowedPaths ++ restrictions.requireHumanApproval ++
      restrictions.readOnlyPaths
    (restrictions,
     allPaths.foldl (fun acc path =>
       if startsWithL (sLit "/") path then acc else acc ++ [pathWarn path]) ws)

/-- The Agent Identification defaults from `parseAgentIdentification`. -/
def agentIdDefaults : AgentIdentification :=
  { requireAgentHeader := false, requireDisclosure := false }

/-- `AgentsMdParser.parseAgentIdentification`. -/
def parseAgentIdentification :
    Option SectionData → List ParseWarning → AgentIdentification × List ParseWarning
  | none, ws => (agentIdDefaults, ws)
  | some data, ws =>
    let s1 : AgentIdentification × List ParseWarning :=
      match mapGet data (sLit "require-agent-header") with
      | none => (agentIdDefaults, ws)
      | some rawRequireHeader =>
        match parseBooleanValue rawRequireHeader (sLit "agent identification")
            (sLit "require-agent-header") ws with
        | (none, ws') => (agentIdDefaults, ws')
        | (some v, ws') => ({ agentIdDefaults with requireAgentHeader := v }, ws')
    let s2 : AgentIdentification × List ParseWarning :=
      match mapGet data (sLit "agent-header-name") with
      | some headerName =>
        if headerName ≠ [] then ({ s1.1 with agentHeaderName := some headerName }, s1.2)
        else s1
      | none => s1
    match mapGet data (sLit "require-disclosure") with
    | none => s2
    | some rawRequireDisclosure =>
      match parseBooleanValue rawRequireDisclosure (sLit "agent identification")
          (sLit "require-disclosure") s2.2 with
      | (none, ws') => (s2.1, ws')
      | (some v, ws') => ({ s2.1 with requireDisclosure := v }, ws')

/-- The structural error for an empty file. -/
def fileEmptyError : ParseError :=
  { sectionName := sLit "file", message := sLit "File is empty." }

/-- The structural error for a missing `## Identity` section. -/
def missingIdentityError : ParseError :=
  { sectionName := sLit "identity",
    message := sLit "Missing required ## Identity section. An AGENTS.md file must contain an Identity section." }

/-- The structural error for a missing/empty `site` directive. -/
def missingSiteError : ParseError :=
  { sectionName := sLit "identity",
    message := sLit "The Identity section is missing the required \"site\" key." }

/-- `AgentsMdParser.parse`: the only fatal conditions are an empty file, a
missing `identity` section, and a missing/empty `site` directive; every other
input assembles a policy with `success` true (`errors.length === 0`, and no
error is ever pushed past the identity checks). -/
def parse (content : Str) : ParseResult :=
  if content = [] ∨ trimL content = [] then
    { success := false, policy := none, errors := [fileEmptyError], warnings := [] }
  else
    let sections := extractSections content
    match mapGet sections (sLit "identity") with
    | none =>
      { success := false, policy := none, errors := [missingIdentityError],
        warnings := [] }
    | some identityData =>
      match parseIdentitySection identityData [] with
      | (none, ws0) =>
        { success := false, policy := none, errors := [missingSiteError],
          warnings := ws0 }
      | (some identityResult, ws0) =>
        let t := parseTrustRequirements (mapGet sections (sLit "trust requirements")) ws0
        let a := parseAllowedActions (mapGet sections (sLit "allowed actions")) t.2
        let r := parseRateLimits (mapGet sections (sLit "rate limits")) a.2
        let d := parseDataHandling (mapGet sections (sLit "data handling")) r.2
        let re := parseRestrictions (mapGet sections (sLit "restrictions")) d.2
        let ai := parseAgentIdentification (mapGet sections (sLit "agent identification")) re.2
        let errors : List ParseError := []
        { success := errors.isEmpty,
          policy := some
            { identity := identityResult, trustRequirements := t.1,
              allowedActions := a.1, rateLimits := r.1, dataHandling := d.1,
              restrictions := re.1, agentIdentification := ai.1 },
          errors := errors, warnings := ai.2 }

/-- `ValidationResult` from `types.ts`. -/
structure ValidationResult where
  valid : Bool
  errors : List Str
deriving DecidableEq, Repr

/-- Substring containment, `String.prototype.includes`. -/
def containsStr (l pat : Str) : Bool :=
  if startsWithL pat l then true
  else
    match l with
    | [] => false
    | _ :: rest => containsStr rest pat

/-- Consume exactly `n` decimal digits, returning the remainder. -/
def chompDigits : Nat → Str → Option Str
  | 0, l => some l
  | _ + 1, [] => none
  | n + 1, c :: l => if c.isDigit then chompDigits n l else none

/-- Trailing time-zone part of the validator's ISO pattern:
`(Z|[+-]\d{2}:\d{2})?$`. -/
def isoZone : Str → Bool
  | [] => true
  | ['Z'] => true
  | c :: rest =>
    if c = '+' ∨ c = '-' then
      match chompDigits 2 rest with
      | some (':' :: r2) => decide (chompDigits 2 r2 = some [])
      | _ => false
    else false

/-- Fractional-seconds part of the validator's ISO pattern:
`(\.\d+)?` followed by the zone (the zone never starts with a digit, so the
greedy digit run is exact). -/
def isoFrac : Str → Bool
  | '.' :: rest =>
    let ds := rest.takeWhile Char.isDigit
    ds ≠ [] ∧ isoZone (rest.drop ds.length)
  | l => isoZone l

/-- Time part of the validator's ISO pattern: `\d{2}:\d{2}:\d{2}` then
fraction and zone. -/
def isoTime (l : Str) : Bool :=
  match chompDigits 2 l with
  | some (':' :: r1) =>
    (match chompDigits 2 r1 with
     | some (':' :: r2) =>
       (match chompDigits 2 r2 with
        | some r3 => isoFrac r3
        | none => false)
     | _ => false)
  | _ => false

/-- The validator's `isoDatePattern`:
`^\d{4}-\d{2}-\d{2}(T..., optional)$`. -/
def isoDateMatch (l : Str) : Bool :=
  match chompDigits 4 l with
  | some ('-' :: r1) =>
    (match chompDigits 2 r1 with
     | some ('-' :: r2) =>
       (match chompDigits 2 r2 with
        | some [] => true
        | some ('T' :: r3) => isoTime r3
        | _ => false)
     | _ => false)
  | _ => false

/-- Validation error strings from `validator.ts`. -/
def siteEmptyErr : Str := sLit "Identity.site is required and must not be empty."

/-- Error for a site containing a scheme separator. -/
def siteProtocolErr (site : Str) : Str :=
  sLit "Identity.site \"" ++ site ++
    sLit "\" must be a domain name only (without protocol, e.g., \"example.com\")."

/-- Error for a site containing a space. -/
def siteSpaceErr (site : Str) : Str :=
  sLit "Identity.site \"" ++ site ++ sLit "\" must not contain spaces."

/-- Error for a malformed `lastUpdated` date. -/
def lastUpdatedErr (lu : Str) : Str :=
  sLit "Identity.lastUpdated \"" ++ lu ++ sLit "\" is not a valid ISO 8601 date."

/-- Error for an out-of-range trust level. -/
def trustLevelErr (level : Int) : Str :=
  sLit "TrustRequirements.minimumTrustLevel must be an integer between 0 and 5. Got: " ++
    intToStr level ++ sLit "."

/-- Error for an invalid authentication value. -/
def authValueErr (auth : Str) : Str :=
  sLit "TrustRequirements.authentication must be one of: required, optional, none. Got: \"" ++
    auth ++ sLit "\"."

/-- Error for empty authentication-method strings. -/
def authMethodsErr : Str :=
  sLit "TrustRequirements.authenticationMethods must contain non-empty strings."

/-- Error for a negative rate limit. -/
def rateLimitErr (field : Str) (value : Int) : Str :=
  sLit "RateLimits." ++ field ++ sLit " must be a non-negative integer. Got: " ++
    intToStr value ++ sLit "."

/-- Error for an invalid enumerated data-handling value. -/
def dataHandlingErr (field values : Str) : Str :=
  sLit "DataHandling." ++ field ++ sLit " must be one of: " ++ values ++ sLit "."

/-- Error for a restriction path without a leading slash. -/
def restrictionPathErr (field path : Str) : Str :=
  sLit "Restrictions." ++ field ++ sLit " path \"" ++ path ++
    sLit "\" must start with \"/\"."

/-- Error for an empty agent header name. -/
def headerNameErr : Str :=
  sLit "AgentIdentification.agentHeaderName must be a non-empty string if specified."

/-- The Identity block of `validate`: the site checks, then the
`lastUpdated` ISO check, in push order. -/
def identityErrors (identity : IdentitySection) : List Str :=
  (if identity.site = [] ∨ trimL identity.site = [] then [siteEmptyErr]
   else
     (if containsStr identity.site (sLit "://") then [siteProtocolErr identity.site]
      else []) ++
     (if identity.site.contains ' ' then [siteSpaceErr identity.site] else [])) ++
  (match identity.lastUpdated with
   | some lu => if isoDateMatch lu then [] else [lastUpdatedErr lu]
   | none => [])

/-- The Trust Requirements block of `validate`: level range, authentication
enum, then method strings (the loop `break`s after the first empty method, so
at most one `authMethodsErr` is pushed). -/
def trustErrors (t : TrustRequirements) : List Str :=
  (if t.minimumTrustLevel < 0 ∨ t.minimumTrustLevel > 5 then
    [trustLevelErr t.minimumTrustLevel] else []) ++
  (if [sLit "required", sLit "optional", sLit "none"].contains t.authentication then []
   else [authValueErr t.authentication]) ++
  (match t.authenticationMethods with
   | some methods =>
     if methods.any (fun m => trimL m = []) then [authMethodsErr] else []
   | none => [])

/-- The Rate Limits block of `validate`: the three fields in declaration
order (`Number.isInteger` is vacuous on exact integers; the sign check is
kept). -/
def rateLimitsErrors (rl : RateLimits) : List Str :=
  [(sLit "requestsPerMinute", rl.requestsPerMinute),
   (sLit "requestsPerHour", rl.requestsPerHour),
   (sLit "concurrentSessions", rl.concurrentSessions)].foldl
    (fun acc fv =>
      match fv.2 with
      | some value => if value < 0 then acc ++ [rateLimitErr fv.1 value] else acc
      | none => acc) []

/-- The Data Handling block of `validate`: the three enumerated fields in
order (the `gdprCompliance` `typeof boolean` guard is vacuous here). -/
def dataHandlingErrors (dh : DataHandling) : List Str :=
  (match dh.personalDataCollection with
   | some v =>
     if [sLit "none", sLit "minimal", sLit "standard", sLit "extensive"].contains v
     then []
     else [dataHandlingErr (sLit "personalDataCollection")
       (sLit "none, minimal, standard, extensive")]
   | none => []) ++
  (match dh.dataRetention with
   | some v =>
     if [sLit "none", sLit "session-only", sLit "30-days", sLit "1-year",
         sLit "indefinite"].contains v then []
     else [dataHandlingErr (sLit "dataRetention")
       (sLit "none, session-only, 30-days, 1-year, indefinite")]
   | none => []) ++
  (match dh.thirdPartySharing with
   | some v =>
     if [sLit "none", sLit "anonymized", sLit "with-consent",
         sLit "unrestricted"].contains v then []
     else [dataHandlingErr (sLit "thirdPartySharing")
       (sLit "none, anonymized, with-consent, unrestricted")]
   | none => [])

/-- The Restrictions block of `validate`: every non-absolute path in the
three lists, in order. -/
def restrictionsErrors (r : Restrictions) : List Str :=
  [(sLit "disallowedPaths", r.disallowedPaths),
   (sLit "requireHumanApproval", r.requireHumanApproval),
   (sLit "readOnlyPaths", r.readOnlyPaths)].foldl
    (fun acc fp =>
      fp.2.foldl (fun a path =>
        if startsWithL (sLit "/") path then a
        else a ++ [restrictionPathErr fp.1 path]) acc) []

/-- The Agent Identification block of `validate` (the two `typeof boolean`
guards are vacuous here; the header-name check is kept). -/
def agentIdErrors (ai : AgentIdentification) : List Str :=
  match ai.agentHeaderName with
  | some h => if trimL h = [] then [headerNameErr] else []
  | none => []

/-- `validate` from `validator.ts`.  The source pushes onto one `errors`
array while walking the sections in a fixed order, so the final array is the
concatenation of the per-section blocks in that order.  Checks that are
runtime-type guards in TypeScript (`typeof`, `Array.isArray`,
`Number.isInteger`, object truthiness) are vacuous in this typed model and
drop out; every value-level check is kept. -/
def validate (policy : AgentsPolicy) : ValidationResult :=
  let errors :=
    identityErrors policy.identity ++ trustErrors policy.trustRequirements ++
    rateLimitsErrors policy.rateLimits ++ dataHandlingErrors policy.dataHandling ++
    restrictionsErrors policy.restrictions ++
    agentIdErrors policy.agentIdentification
  { valid := errors.isEmpty, errors := errors }

/-- An HTTP response as observed by `attemptFetch` in `fetcher.ts`: the final
URL after redirects (`response.url`), the status, the optional
`content-length` header and the body text. -/
structure FetchResponse where
  url : Str
  status : Nat
  contentLength : Option Str := none
  body : Str
deriving DecidableEq, Repr

/-- `Response.ok` — a 2xx status. -/
def respOk (r : FetchResponse) : Bool := 200 ≤ r.status ∧ r.status ≤ 299

/-- The outcome of one `fetch(url, ...)` call: a settled response, or a
rejection carrying the error's `name` and message.  The per-attempt timeout
fires the `AbortController`, which rejects the fetch with an error named
`AbortError`. -/
inductive FetchOutcome
  | response (resp : FetchResponse)
  | failure (errName errMsg : Str)
deriving DecidableEq, Repr

/-- The network, abstracted as what fetching each URL yields. -/
abbrev Network := Str → FetchOutcome

/-- `MAX_FILE_SIZE_BYTES` (1 MB) from `fetcher.ts`. -/
def maxFileSizeBytes : Nat := 1048576

/-- `FETCH_TIMEOUT_MS` from `fetcher.ts` (the timeout itself is realized in
the model by an `AbortError` `FetchOutcome`). -/
def fetchTimeoutMs : Nat := 10000

/-- UTF-8 byte length, `new TextEncoder().encode(text).length`. -/
def utf8Len (l : Str) : Nat :=
  (l.map (fun c =>
    if c.toNat < 0x80 then 1
    else if c.toNat < 0x800 then 2
    else if c.toNat < 0x10000 then 3
    else 4)).sum

/-- The failures `fetchPolicy` surfaces to its caller: the `FetchPolicyError`
thrown for a non-HTTPS origin, or a rethrown network-level error. -/
inductive FetchFailure
  | policyError (msg : Str)
  | networkError (errName errMsg : Str)
deriving DecidableEq, Repr

/-- Decidable equality for `Except` results, used to evaluate discovery
outcomes on concrete inputs. -/
instance {e a : Type} [DecidableEq e] [DecidableEq a] : DecidableEq (Except e a) :=
  fun x y =>
    match x, y with
    | .ok u, .ok v =>
      if h : u = v then isTrue (by rw [h]) else isFalse (fun hh => h (by cases hh; rfl))
    | .error u, .error v =>
      if h : u = v then isTrue (by rw [h]) else isFalse (fun hh => h (by cases hh; rfl))
    | .ok _, .error _ => isFalse (fun hh => Except.noConfusion hh)
    | .error _, .ok _ => isFalse (fun hh => Except.noConfusion hh)

/-- `attemptFetch` from `fetcher.ts`: `.ok none` is the function returning
`null` ("not found" for this candidate), `.ok (some body)` is a usable body,
`.error` is a rethrown network failure. -/
def attemptFetch (net : Network) (url : Str) (enforceHttps : Bool) :
    Except FetchFailure (Option Str) :=
  match net url with
  | .failure errName errMsg =>
    if errName = sLit "AbortError" then .ok none
    else .error (.networkError errName errMsg)
  | .response resp =>
    if enforceHttps ∧ ¬ startsWithL (sLit "https://") resp.url then .ok none
    else if resp.status = 404 then .ok none
    else if ¬ respOk resp then .ok none
    else if (match resp.contentLength with
             | some cl =>
               (match parseIntJS cl with
                | some v => decide (v > (maxFileSizeBytes : Int))
                | none => false)
             | none => false) then .ok none
    else if utf8Len resp.body > maxFileSizeBytes then .ok none
    else .ok (some resp.body)

/-- `FetchPolicyOptions` from `fetcher.ts` (defaults applied by
destructuring in `fetchPolicy`; `timeoutMs` only parameterizes the abort
timer, which the `Network` abstraction already accounts for). -/
structure FetchPolicyOptions where
  enforceHttps : Bool := true
  timeoutMs : Nat := fetchTimeoutMs
deriving DecidableEq, Repr

/-- `baseUrl.replace` of trailing slashes. -/
def stripTrailingSlashes (l : Str) : Str :=
  (l.reverse.dropWhile (fun c => c = '/')).reverse

/-- The two candidate URLs tried by `fetchPolicy`, in order. -/
def agentsCandidates (normalizedBase : Str) : List Str :=
  [normalizedBase ++ sLit "/AGENTS.md",
   normalizedBase ++ sLit "/.well-known/agents.md"]

/-- The `FetchPolicyError` message for a non-HTTPS origin. -/
def httpsErrMsg (baseUrl : Str) : Str :=
  sLit "AGENTS.md must be served over HTTPS. Received URL: \"" ++ baseUrl ++
    sLit "\". Pass { enforceHttps: false } to override for testing."

/-- The candidate loop of `fetchPolicy`: the first candidate with content is
parsed and returned; a `null` body moves to the next candidate; a thrown
error propagates. -/
def fetchCandidates (net : Network) (enforceHttps : Bool) :
    List Str → Except FetchFailure (Option ParseResult)
  | [] => .ok none
  | url :: rest =>
    match attemptFetch net url enforceHttps with
    | .error e => .error e
    | .ok none => fetchCandidates net enforceHttps rest
    | .ok (some content) => .ok (some (parse content))

/-- `fetchPolicy` from `fetcher.ts`: `.ok none` is the function resolving to
`null` (no policy at either location). -/
def fetchPolicy (net : Network) (baseUrl : Str)
    (options : FetchPolicyOptions := {}) : Except FetchFailure (Option ParseResult) :=
  let normalizedBase := stripTrailingSlashes baseUrl
  if options.enforceHttps ∧ ¬ startsWithL (sLit "https://") normalizedBase then
    .error (.policyError (httpsErrMsg baseUrl))
  else
    fetchCandidates net options.enforceHttps (agentsCandidates normalizedBase)

/-- `maxAgeMs` of the `PolicyCache` example in
`docs/for-agent-developers.md`: 24 hours. -/
def maxAgeMs : Int := 24 * 60 * 60 * 1000

/-- An entry of the `PolicyCache` map. -/
structure CacheEntry where
  policy : ParseResult
  fetchedAt : Int
deriving DecidableEq, Repr

/-- The `PolicyCache` map, keyed by base URL. -/
abbrev PolicyCacheMap := List (Str × CacheEntry)

/-- The refresh tail of `PolicyCache.getPolicy`: `await fetchPolicy(baseUrl)`
(whose settled result is passed in as `fetchResult`), caching a non-null
policy before returning it.  The returned pair carries the updated map. -/
def cacheRefresh (cache : PolicyCacheMap) (now : Int)
    (fetchResult : Except FetchFailure (Option ParseResult)) (baseUrl : Str) :
    Except FetchFailure (Option ParseResult × PolicyCacheMap) :=
  match fetchResult with
  | .error e => .error e
  | .ok none => .ok (none, cache)
  | .ok (some p) => .ok (some p, mapSet cache baseUrl { policy := p, fetchedAt := now })

/-- `PolicyCache.getPolicy` from `docs/for-agent-developers.md`: serve the
cached entry while it is younger than `maxAgeMs`, otherwise refresh. -/
def getPolicy (cache : PolicyCacheMap) (now : Int)
    (fetchResult : Except FetchFailure (Option ParseResult)) (baseUrl : Str) :
    Except FetchFailure (Option ParseResult × PolicyCacheMap) :=
  match mapGet cache baseUrl with
  | some cached =>
    if now - cached.fetchedAt < maxAgeMs then .ok (some cached.policy, cache)
    else cacheRefresh cache now fetchResult baseUrl
  | none => cacheRefresh cache now fetchResult baseUrl

/-- The consumer-side header-name default from `buildAgentHeaders` in
`docs/for-agent-developers.md`: `agentHeaderName ?? 'X-Agent-Identity'`. -/
def effectiveHeaderName (ai : AgentIdentification) : Str :=
  match ai.agentHeaderName with
  | some h => h
  | none => sLit "X-Agent-Identity"

/-! ### Generic list and map lemmas -/

/-- A fold whose step only appends produces an extension of its seed. -/
theorem foldl_grows {α β : Type} (f : List α → β → List α)
    (hf : ∀ a x, ∃ t, f a x = a ++ t) :
    ∀ (xs : List β) (a : List α), ∃ t, xs.foldl f a = a ++ t := by
  intro xs
  induction xs with
  | nil => intro a; exact ⟨[], by simp⟩
  | cons x xs ih =>
    intro a
    obtain ⟨t₁, ht₁⟩ := hf a x
    obtain ⟨t₂, ht₂⟩ := ih (f a x)
    refine ⟨t₁ ++ t₂, ?_⟩
    rw [List.foldl_cons, ht₂, ht₁, List.append_assoc]

/-- Lookup into a cons cell of an association list. -/
theorem mapGet_cons {α : Type} (a : Str) (b : α) (m : List (Str × α)) (k : Str) :
    mapGet ((a, b) :: m) k = if a = k then some b else mapGet m k := by
  unfold mapGet
  by_cases h : a = k
  · rw [List.find?_cons_of_pos _ (by simp [h])]
    simp [h]
  · rw [List.find?_cons_of_neg _ (by simp [h])]
    simp [h]

/-- In-place update of key `k` does not change lookups of other keys. -/
theorem mapGet_map_update_ne {α : Type} (m : List (Str × α)) (k k' : Str) (v : α)
    (h : k' ≠ k) :
    mapGet (m.map fun p => if p.1 = k then (k, v) else p) k' = mapGet m k' := by
  induction m with
  | nil => rfl
  | cons p m ih =>
    obtain ⟨a, b⟩ := p
    rw [List.map_cons]
    by_cases hp : a = k
    · have h1 : (if (a, b).1 = k then (k, v) else (a, b)) = (k, v) := by
        simp [hp]
      rw [h1, mapGet_cons, mapGet_cons, if_neg (Ne.symm h),
        if_neg (fun hh : a = k' => h (by rw [← hh, hp])), ih]
    · have h1 : (if (a, b).1 = k then (k, v) else (a, b)) = (a, b) := by
        simp [hp]
      rw [h1, mapGet_cons, mapGet_cons]
      by_cases ha : a = k'
      · simp [ha]
      · simp [ha, ih]

/-- Appending a binding for key `k` does not change lookups of other keys. -/
theorem mapGet_append_ne {α : Type} (m : List (Str × α)) (k k' : Str) (v : α)
    (h : k' ≠ k) : mapGet (m ++ [(k, v)]) k' = mapGet m k' := by
  induction m with
  | nil => simp [mapGet_cons, Ne.symm h, mapGet]
  | cons p m ih =>
    obtain ⟨a, b⟩ := p
    rw [List.cons_append, mapGet_cons, mapGet_cons]
    by_cases ha : a = k'
    · simp [ha]
    · simp [ha, ih]

/-- Lookup after updating a different key. -/
theorem mapGet_mapSet_ne {α : Type} (m : List (Str × α)) (k k' : Str) (v : α)
    (h : k' ≠ k) : mapGet (mapSet m k v) k' = mapGet m k' := by
  unfold mapSet
  by_cases hk : m.any (fun p => p.1 = k)
  · simp only [hk, if_true]
    exact mapGet_map_update_ne m k k' v h
  · simp only [hk, if_false]
    exact mapGet_append_ne m k k' v h

/-- A key not among the stored keys looks up to `none`. -/
theorem mapGet_eq_none {α : Type} (m : List (Str × α)) (k : Str)
    (h : k ∉ m.map Prod.fst) : mapGet m k = none := by
  induction m with
  | nil => rfl
  | cons p m ih =>
    obtain ⟨a, b⟩ := p
    simp only [List.map_cons, List.mem_cons] at h
    push_neg at h
    rw [mapGet_cons, if_neg (Ne.symm h.1)]
    exact ih h.2

/-! ### Whitespace-only content yields no sections -/

/-- The pieces of `splitOnSep` are made of characters of the input. -/
theorem splitOnSep_mem (sep : Char) :
    ∀ (l : Str) (piece : Str), piece ∈ splitOnSep sep l → ∀ c ∈ piece, c ∈ l := by
  intro l
  induction l with
  | nil =>
    intro piece hp c hc
    simp [splitOnSep] at hp
    subst hp
    simp at hc
  | cons x rest ih =>
    intro piece hp c hc
    simp only [splitOnSep] at hp
    by_cases hx : x = sep
    · rw [if_pos hx] at hp
      rcases List.mem_cons.mp hp with h | h
      · subst h; simp at hc
      · exact List.mem_cons_of_mem _ (ih piece h c hc)
    · rw [if_neg hx] at hp
      cases hr : splitOnSep sep rest with
      | nil =>
        rw [hr] at hp
        simp at hp
        subst hp
        simp at hc
        simp [hc]
      | cons y ys =>
        rw [hr] at hp
        rcases List.mem_cons.mp hp with h | h
        · subst h
          rcases List.mem_cons.mp hc with h' | h'
          · subst h'; simp
          · exact List.mem_cons_of_mem _ (ih y (by rw [hr]; simp) c h')
        · exact List.mem_cons_of_mem _ (ih piece (by rw [hr]; simp [h]) c hc)

/-- `stripCRs` pieces are made of characters of the original pieces. -/
theorem stripCRs_mem :
    ∀ (ps : List Str) (piece : Str), piece ∈ stripCRs ps →
      ∀ c ∈ piece, ∃ p ∈ ps, c ∈ p := by
  intro ps
  induction ps with
  | nil =>
    intro piece hp
    rw [show stripCRs [] = [] from rfl] at hp
    exact absurd hp (List.not_mem_nil piece)
  | cons x xs ih =>
    intro piece hp c hc
    cases xs with
    | nil =>
      rw [show stripCRs [x] = [x] from rfl] at hp
      rcases List.mem_cons.mp hp with h | h
      · exact ⟨x, by simp, h ▸ hc⟩
      · exact absurd h (List.not_mem_nil piece)
    | cons y ys =>
      rw [show stripCRs (x :: y :: ys) =
            (if x.getLast? = some '\r' then x.dropLast else x) :: stripCRs (y :: ys)
          from rfl] at hp
      rcases List.mem_cons.mp hp with h | h
      · subst h
        by_cases hl : x.getLast? = some '\r'
        · rw [if_pos hl] at hc
          exact ⟨x, by simp, List.dropLast_sublist x |>.mem hc⟩
        · rw [if_neg hl] at hc
          exact ⟨x, by simp, hc⟩
      · obtain ⟨p, hp1, hp2⟩ := ih piece h c hc
        exact ⟨p, List.mem_cons_of_mem _ hp1, hp2⟩

/-- A line of whitespace characters is not a section heading. -/
theorem matchSectionHeading_of_ws (line : Str) (h : ∀ c ∈ line, jsIsWs c) :
    matchSectionHeading line = none := by
  rw [matchSectionHeading.eq_def]
  split
  · rename_i c d rest
    have : jsIsWs '#' = true := h '#' (by simp)
    simp [jsIsWs] at this
  · rfl

/-- With no heading lines and no open section, the loop returns its
accumulator unchanged. -/
theorem extractLoop_no_heading (lines : List Str)
    (h : ∀ line ∈ lines, matchSectionHeading line = none) (curLines : List Str)
    (acc : SectionsMap) : extractLoop lines none curLines acc = acc := by
  induction lines generalizing curLines with
  | nil => rfl
  | cons line rest ih =>
    have hl := h line (by simp)
    simp only [extractLoop, hl]
    exact ih (fun l hm => h l (List.mem_cons_of_mem _ hm)) curLines

/-- `trimL l` is empty exactly when every character of `l` is whitespace. -/
theorem trimL_eq_nil_iff (l : Str) : trimL l = [] ↔ ∀ c ∈ l, jsIsWs c := by
  unfold trimL
  constructor
  · intro h c hc
    rw [List.reverse_eq_nil_iff] at h
    have h2 : ∀ c ∈ (l.dropWhile jsIsWs).reverse, jsIsWs c :=
      List.dropWhile_eq_nil_iff.mp h
    have h3 : ∀ c ∈ l.dropWhile jsIsWs, jsIsWs c := by
      intro c hc; exact h2 c (List.mem_reverse.mpr hc)
    have h4 := List.takeWhile_append_dropWhile (p := jsIsWs) (l := l)
    rw [← h4] at hc
    rcases List.mem_append.mp hc with h5 | h5
    · exact List.mem_takeWhile_imp h5
    · exact h3 c h5
  · intro h
    have h1 : l.dropWhile jsIsWs = [] := by
      rw [List.dropWhile_eq_nil_iff]; exact fun c hc => h c hc
    simp [h1]

/-- Whitespace-only content produces no sections at all. -/
theorem extractSections_of_ws (content : Str) (h : trimL content = []) :
    extractSections content = [] := by
  have hall := (trimL_eq_nil_iff content).mp h
  unfold extractSections
  apply extractLoop_no_heading
  intro line hline
  apply matchSectionHeading_of_ws
  intro c hc
  obtain ⟨p, hp1, hp2⟩ := stripCRs_mem _ line hline c hc
  exact hall c (splitOnSep_mem '\n' content p hp1 c hp2)

/-! ### C1: characterization of parse failure -/

/-- The structural failure condition of `parse`: the `identity` section is
absent, or its `site` directive is absent or empty after trimming. -/
def siteMissing (content : Str) : Bool :=
  match mapGet (extractSections content) (sLit "identity") with
  | none => true
  | some d =>
    match mapGet d (sLit "site") with
    | none => true
    | some site => site = [] ∨ trimL site = []

/-- C1 (counterexample): on the empty input, `parse` fails with its single
structural error referencing the section `"file"`, not `"identity"` — so the
claim that every failure carries an error referencing "identity" is false. -/
theorem c1_counterexample :
    (parse (sLit "")).success = false ∧
    (parse (sLit "")).errors.map ParseError.sectionName = [sLit "file"] ∧
    sLit "file" ≠ sLit "identity" := by decide

/-- C1 (amended): `parse` returns `success = false` exactly when `Identity.site`
is missing or empty after trimming (no `identity` section, no `site` directive,
or an empty one); in that case no policy is returned and the result carries a
single structural error — referencing `"identity"` when the input is non-empty
after trimming and `"file"` when it is empty or whitespace-only; for every
other input `parse` returns `success = true` with a policy. -/
theorem c1_parse_failure_characterization (content : Str) :
    ((parse content).success = false ↔ siteMissing content = true)
    ∧ ((parse content).success = false → (parse content).policy = none)
    ∧ ((parse content).success = false →
        (parse content).errors.map ParseError.sectionName =
          [if content = [] ∨ trimL content = [] then sLit "file" else sLit "identity"])
    ∧ ((parse content).success = true → (parse content).policy ≠ none) := by
  by_cases hE : content = [] ∨ trimL content = []
  · have hT : trimL content = [] := by
      rcases hE with h | h
      · rw [h]; rfl
      · exact h
    have hS : extractSections content = [] := extractSections_of_ws content hT
    have hP : parse content =
        { success := false, policy := none, errors := [fileEmptyError], warnings := [] } := by
      unfold parse
      rw [if_pos hE]
    have hM : siteMissing content = true := by
      unfold siteMissing
      rw [hS]
      rfl
    rw [hP]
    refine ⟨⟨fun _ => hM, fun _ => rfl⟩, fun _ => rfl, fun _ => ?_, fun hs => by simp at hs⟩
    rw [if_pos hE]
    rfl
  · cases hid : mapGet (extractSections content) (sLit "identity") with
    | none =>
      have hP : parse content =
          { success := false, policy := none, errors := [missingIdentityError],
            warnings := [] } := by
        simp only [parse]
        rw [if_neg hE]
        simp only [hid]
      have hM : siteMissing content = true := by
        simp only [siteMissing, hid]
      rw [hP]
      refine ⟨⟨fun _ => hM, fun _ => rfl⟩, fun _ => rfl, fun _ => ?_, fun hs => by simp at hs⟩
      rw [if_neg hE]
      rfl
    | some d =>
      cases hsite : mapGet d (sLit "site") with
      | none =>
        have hPI : parseIdentitySection d [] = (none, []) := by
          simp only [parseIdentitySection, hsite]
        have hP : parse content =
            { success := false, policy := none, errors := [missingSiteError],
              warnings := [] } := by
          simp only [parse]
          rw [if_neg hE]
          simp only [hid, hPI]
        have hM : siteMissing content = true := by
          simp only [siteMissing, hid, hsite]
        rw [hP]
        refine ⟨⟨fun _ => hM, fun _ => rfl⟩, fun _ => rfl, fun _ => ?_,
          fun hs => by simp at hs⟩
        rw [if_neg hE]
        rfl
      | some site =>
        by_cases hempty : site = [] ∨ trimL site = []
        · have hPI : parseIdentitySection d [] = (none, []) := by
            simp only [parseIdentitySection, hsite]
            rw [if_pos hempty]
          have hP : parse content =
              { success := false, policy := none, errors := [missingSiteError],
                warnings := [] } := by
            simp only [parse]
            rw [if_neg hE]
            simp only [hid, hPI]
          have hM : siteMissing content = true := by
            simp only [siteMissing, hid, hsite]
            exact decide_eq_true hempty
          rw [hP]
          refine ⟨⟨fun _ => hM, fun _ => rfl⟩, fun _ => rfl, fun _ => ?_,
            fun hs => by simp at hs⟩
          rw [if_neg hE]
          rfl
        · obtain ⟨idv, wsv, hPI⟩ :
            ∃ a b, parseIdentitySection d [] = (some a, b) := by
            simp only [parseIdentitySection, hsite]
            rw [if_neg hempty]
            exact ⟨_, _, rfl⟩
          have hM : siteMissing content = false := by
            simp only [siteMissing, hid, hsite]
            exact decide_eq_false hempty
          obtain ⟨p, w, hP⟩ : ∃ p w, parse content =
              { success := true, policy := some p, errors := [], warnings := w } := by
            simp only [parse]
            rw [if_neg hE]
            simp only [hid, hPI]
            exact ⟨_, _, rfl⟩
          rw [hP]
          refine ⟨⟨fun hs => by simp at hs, fun hm => by rw [hM] at hm; simp at hm⟩,
            fun hs => by simp at hs, fun hs => by simp at hs, fun _ => by simp⟩

/-- C1 (witness): a file whose Identity section lacks `site` fails with no
policy and a single error referencing `"identity"`. -/
theorem c1_witness :
    (parse (sLit "## Identity\n- contact: a@b.com")).policy = none ∧
    (parse (sLit "## Identity\n- contact: a@b.com")).errors.map ParseError.sectionName =
      [sLit "identity"] := by
  have h := c1_parse_failure_characterization (sLit "## Identity\n- contact: a@b.com")
  refine ⟨h.2.1 (by decide), ?_⟩
  have h3 := h.2.2.1 (by decide)
  rw [if_neg (by decide)] at h3
  exact h3

/-! ### C4: minimal input produces the documented defaults -/

/-- C4: for every input whose section map is exactly an `identity` section
holding one non-empty `site` directive, `parse` succeeds and every other part
of the policy is its documented default: trust `{0, "none"}`, allowed actions
`readContent = true` and the other standard actions `false`, empty rate
limits and data handling, empty restriction lists, and agent identification
`{requireAgentHeader := false, requireDisclosure := false}` with
`agentHeaderName` unset, whose consumer-side default is `X-Agent-Identity`. -/
theorem c4_minimal_input_defaults (content v : Str)
    (hE : extractSections content = [(sLit "identity", [(sLit "site", v)])])
    (hv : trimL v ≠ []) :
    (parse content).success = true
    ∧ (parse content).policy = some
        { identity := { site := trimL v
                        contact := none
                        lastUpdated := none
                        specVersion := none }
          trustRequirements := { minimumTrustLevel := 0
                                 authentication := sLit "none"
                                 authenticationMethods := none }
          allowedActions := allowedActionsDefaults
          rateLimits := { requestsPerMinute := none
                          requestsPerHour := none
                          concurrentSessions := none }
          dataHandling := { personalDataCollection := none
                            dataRetention := none
                            thirdPartySharing := none
                            gdprCompliance := none }
          restrictions := { disallowedPaths := []
                            requireHumanApproval := []
                            readOnlyPaths := [] }
          agentIdentification := { requireAgentHeader := false
                                   agentHeaderName := none
                                   requireDisclosure := false } }
    ∧ (parse content).warnings = []
    ∧ effectiveHeaderName { requireAgentHeader := false
                            agentHeaderName := none
                            requireDisclosure := false } = sLit "X-Agent-Identity" := by
  have hv0 : v ≠ [] := by
    intro h
    apply hv
    rw [h]
    rfl
  have h' : ¬(v = [] ∨ trimL v = []) := by
    rintro (h | h)
    exacts [hv0 h, hv h]
  have hNE : ¬(content = [] ∨ trimL content = []) := by
    rintro (h | h)
    · have h2 : trimL content = [] := by rw [h]; rfl
      have h3 := extractSections_of_ws content h2
      rw [hE] at h3
      simp at h3
    · have h3 := extractSections_of_ws content h
      rw [hE] at h3
      simp at h3
  have hGetId : mapGet (extractSections content) (sLit "identity") =
      some [(sLit "site", v)] := by rw [hE]; rfl
  have hGetTrust : mapGet (extractSections content) (sLit "trust requirements") =
      none := by rw [hE]; rfl
  have hGetAct : mapGet (extractSections content) (sLit "allowed actions") =
      none := by rw [hE]; rfl
  have hGetRate : mapGet (extractSections content) (sLit "rate limits") =
      none := by rw [hE]; rfl
  have hGetData : mapGet (extractSections content) (sLit "data handling") =
      none := by rw [hE]; rfl
  have hGetRestr : mapGet (extractSections content) (sLit "restrictions") =
      none := by rw [hE]; rfl
  have hGetAgent : mapGet (extractSections content) (sLit "agent identification") =
      none := by rw [hE]; rfl
  have hPI : parseIdentitySection [(sLit "site", v)] [] =
      (some { site := trimL v }, []) := by
    have h0 : parseIdentitySection [(sLit "site", v)] [] =
        if v = [] ∨ trimL v = [] then (none, [])
        else (some { site := trimL v }, []) := rfl
    rw [h0, if_neg h']
  have hP : parse content =
      { success := true
        policy := some
          { identity := { site := trimL v }
            trustRequirements := { minimumTrustLevel := 0
                                   authentication := sLit "none" }
            allowedActions := allowedActionsDefaults
            rateLimits := {}
            dataHandling := {}
            restrictions := { disallowedPaths := []
                              requireHumanApproval := []
                              readOnlyPaths := [] }
            agentIdentification := { requireAgentHeader := false
                                     requireDisclosure := false } }
        errors := []
        warnings := [] } := by
    simp only [parse]
    rw [if_neg hNE]
    simp only [hGetId, hPI, hGetTrust, hGetAct, hGetRate, hGetData, hGetRestr,
      hGetAgent]
    rfl
  rw [hP]
  exact ⟨rfl, rfl, rfl, rfl⟩

/-- C4 (witness): the two-line minimal file parses to the default policy. -/
theorem c4_witness :
    (parse (sLit "## Identity\n- site: example.com")).success = true ∧
    (parse (sLit "## Identity\n- site: example.com")).policy = some
      { identity := { site := sLit "example.com"
                      contact := none
                      lastUpdated := none
                      specVersion := none }
        trustRequirements := { minimumTrustLevel := 0
                               authentication := sLit "none"
                               authenticationMethods := none }
        allowedActions := allowedActionsDefaults
        rateLimits := { requestsPerMinute := none
                        requestsPerHour := none
                        concurrentSessions := none }
        dataHandling := { personalDataCollection := none
                          dataRetention := none
                          thirdPartySharing := none
                          gdprCompliance := none }
        restrictions := { disallowedPaths := []
                          requireHumanApproval := []
                          readOnlyPaths := [] }
        agentIdentification := { requireAgentHeader := false
                                 agentHeaderName := none
                                 requireDisclosure := false } } := by
  have h := c4_minimal_input_defaults (sLit "## Identity\n- site: example.com")
    (sLit "example.com") (by decide) (by decide)
  exact ⟨h.1, h.2.1⟩

/-! ### C8: validator site checks -/

/-- A policy whose site contains a tab character (whitespace that is not the
space character). -/
def tabSitePolicy : AgentsPolicy :=
  { identity := { site := sLit "a\tb" }
    trustRequirements := { minimumTrustLevel := 0, authentication := sLit "none" }
    allowedActions := allowedActionsDefaults
    rateLimits := {}
    dataHandling := {}
    restrictions := { disallowedPaths := [], requireHumanApproval := [], readOnlyPaths := [] }
    agentIdentification := { requireAgentHeader := false, requireDisclosure := false } }

/-- A policy whose site contains a space character. -/
def spaceSitePolicy : AgentsPolicy :=
  { identity := { site := sLit "exa mple.com" }
    trustRequirements := { minimumTrustLevel := 0, authentication := sLit "none" }
    allowedActions := allowedActionsDefaults
    rateLimits := {}
    dataHandling := {}
    restrictions := { disallowedPaths := [], requireHumanApproval := [], readOnlyPaths := [] }
    agentIdentification := { requireAgentHeader := false, requireDisclosure := false } }

/-- C8 (counterexample): a site containing a tab — a whitespace character
that is not a space — validates with no error, so the claim that any
whitespace in `Identity.site` is reported is false: the code checks only for
the space character. -/
theorem c8_counterexample :
    ('\t' ∈ tabSitePolicy.identity.site ∧ jsIsWs '\t' = true) ∧
    (validate tabSitePolicy).valid = true ∧
    (validate tabSitePolicy).errors = [] := by decide

/-- C8 (amended): `validate` reports an error whenever `Identity.site` is
empty (or whitespace-only), contains the scheme separator `"://"`, or
contains a space character (U+0020), and the returned `valid` flag is true
exactly when the error list is empty. -/
theorem c8_validate_site_checks (policy : AgentsPolicy) :
    ((validate policy).valid = true ↔ (validate policy).errors = [])
    ∧ ((policy.identity.site = [] ∨ trimL policy.identity.site = []) →
        (validate policy).errors ≠ [])
    ∧ (containsStr policy.identity.site (sLit "://") = true →
        (validate policy).errors ≠ [])
    ∧ (policy.identity.site.contains ' ' = true →
        (validate policy).errors ≠ []) := by
  have hE : (validate policy).errors =
      identityErrors policy.identity ++ (trustErrors policy.trustRequirements ++
        rateLimitsErrors policy.rateLimits ++ dataHandlingErrors policy.dataHandling ++
        restrictionsErrors policy.restrictions ++
        agentIdErrors policy.agentIdentification) := by
    simp only [validate, List.append_assoc]
  have hV : (validate policy).valid = (validate policy).errors.isEmpty := rfl
  have hNe : identityErrors policy.identity ≠ [] → (validate policy).errors ≠ [] := by
    intro h1 h2
    rw [hE] at h2
    exact h1 (List.append_eq_nil.mp h2).1
  refine ⟨?_, ?_, ?_, ?_⟩
  · rw [hV]
    exact List.isEmpty_iff
  · intro h
    apply hNe
    unfold identityErrors
    rw [if_pos h]
    simp
  · intro h
    apply hNe
    unfold identityErrors
    by_cases hemp : policy.identity.site = [] ∨ trimL policy.identity.site = []
    · rw [if_pos hemp]; simp
    · rw [if_neg hemp, if_pos h]; simp
  · intro h
    apply hNe
    unfold identityErrors
    by_cases hemp : policy.identity.site = [] ∨ trimL policy.identity.site = []
    · rw [if_pos hemp]; simp
    · rw [if_neg hemp, if_pos h]; simp

/-- C8 (witness): a site containing a space is rejected, and `valid`
reflects emptiness of the error list. -/
theorem c8_witness :
    (validate spaceSitePolicy).errors ≠ [] ∧
    ((validate spaceSitePolicy).valid = true ↔ (validate spaceSitePolicy).errors = []) := by
  have h := c8_validate_site_checks spaceSitePolicy
  exact ⟨h.2.2.2 (by decide), h.1⟩

/-! ### C2, C3, C6: discovery client -/

/-- A network serving a policy at the root candidate. -/
def rootNet : Network := fun url =>
  if url = sLit "https://example.com/AGENTS.md" then
    .response { url := sLit "https://example.com/AGENTS.md"
                status := 200
                contentLength := none
                body := sLit "## Identity\n- site: example.com" }
  else .response { url := url, status := 404, contentLength := none, body := sLit "" }

/-- A network serving a policy only at the well-known fallback. -/
def fallbackNet : Network := fun url =>
  if url = sLit "https://example.com/.well-known/agents.md" then
    .response { url := sLit "https://example.com/.well-known/agents.md"
                status := 200
                contentLength := none
                body := sLit "## Identity\n- site: example.com" }
  else .response { url := url, status := 404, contentLength := none, body := sLit "" }

/-- A network with no policy anywhere. -/
def notFoundNet : Network := fun url =>
  .response { url := url, status := 404, contentLength := none, body := sLit "" }

/-- A network whose root candidate redirects to a plain-HTTP final URL that
serves content, and whose fallback has nothing. -/
def downgradeNet : Network := fun url =>
  if url = sLit "https://example.com/AGENTS.md" then
    .response { url := sLit "http://evil.example/AGENTS.md"
                status := 200
                contentLength := none
                body := sLit "## Identity\n- site: evil.example" }
  else .response { url := url, status := 404, contentLength := none, body := sLit "" }

/-- A network whose root candidate times out and whose fallback serves a
policy. -/
def abortPrimaryNet : Network := fun url =>
  if url = sLit "https://example.com/AGENTS.md" then
    .failure (sLit "AbortError") (sLit "The operation was aborted.")
  else if url = sLit "https://example.com/.well-known/agents.md" then
    .response { url := sLit "https://example.com/.well-known/agents.md"
                status := 200
                contentLength := none
                body := sLit "## Identity\n- site: example.com" }
  else .response { url := url, status := 404, contentLength := none, body := sLit "" }

/-- A network where every fetch fails at the connection level. -/
def dnsFailNet : Network := fun _ =>
  .failure (sLit "TypeError") (sLit "fetch failed")

/-- C2: with the pre-flight scheme check passing, the two candidate URLs are
tried strictly in order — a root candidate yielding content is parsed and
returned no matter what the fallback would do; only when the root candidate
yields no content is the fallback consulted; and when both yield no content
the result is `null` ("no policy"), not an error. -/
theorem c2_discovery_order (net : Network) (baseUrl : Str)
    (options : FetchPolicyOptions)
    (hPre : options.enforceHttps = true →
      startsWithL (sLit "https://") (stripTrailingSlashes baseUrl) = true) :
    (∀ c1, attemptFetch net (stripTrailingSlashes baseUrl ++ sLit "/AGENTS.md")
        options.enforceHttps = .ok (some c1) →
      fetchPolicy net baseUrl options = .ok (some (parse c1)))
    ∧ (attemptFetch net (stripTrailingSlashes baseUrl ++ sLit "/AGENTS.md")
        options.enforceHttps = .ok none →
      (∀ c2, attemptFetch net
          (stripTrailingSlashes baseUrl ++ sLit "/.well-known/agents.md")
          options.enforceHttps = .ok (some c2) →
        fetchPolicy net baseUrl options = .ok (some (parse c2)))
      ∧ (attemptFetch net
          (stripTrailingSlashes baseUrl ++ sLit "/.well-known/agents.md")
          options.enforceHttps = .ok none →
        fetchPolicy net baseUrl options = .ok none)) := by
  have hIf : ¬(options.enforceHttps = true ∧
      ¬ startsWithL (sLit "https://") (stripTrailingSlashes baseUrl) = true) := by
    rintro ⟨h1, h2⟩
    exact h2 (hPre h1)
  constructor
  · intro c1 h1
    simp only [fetchPolicy]
    rw [if_neg hIf]
    simp only [agentsCandidates, fetchCandidates, h1]
  · intro h1
    constructor
    · intro c2 h2
      simp only [fetchPolicy]
      rw [if_neg hIf]
      simp only [agentsCandidates, fetchCandidates, h1, h2]
    · intro h2
      simp only [fetchPolicy]
      rw [if_neg hIf]
      simp only [agentsCandidates, fetchCandidates, h1, h2]

/-- C2 (witness): the root candidate wins when present, the fallback is used
when the root is absent, and two misses yield `null`. -/
theorem c2_witness :
    fetchPolicy rootNet (sLit "https://example.com") {} =
      .ok (some (parse (sLit "## Identity\n- site: example.com"))) ∧
    fetchPolicy fallbackNet (sLit "https://example.com") {} =
      .ok (some (parse (sLit "## Identity\n- site: example.com"))) ∧
    fetchPolicy notFoundNet (sLit "https://example.com") {} = .ok none := by
  have h1 := c2_discovery_order rootNet (sLit "https://example.com") {}
    (fun _ => by decide)
  have h2 := c2_discovery_order fallbackNet (sLit "https://example.com") {}
    (fun _ => by decide)
  have h3 := c2_discovery_order notFoundNet (sLit "https://example.com") {}
    (fun _ => by decide)
  exact ⟨h1.1 _ (by decide), (h2.2 (by decide)).1 _ (by decide),
    (h3.2 (by decide)).2 (by decide)⟩

/-- C3 (counterexample): with HTTPS enforcement on, a candidate whose final
resolved URL is plain HTTP is silently converted into a not-found result:
discovery over `downgradeNet` ends in `.ok none` ("no policy"), with no
caller-visible failure, refuting the claim that the mid-flight downgrade is
raised to the caller. -/
theorem c3_counterexample :
    downgradeNet (sLit "https://example.com/AGENTS.md") =
      .response { url := sLit "http://evil.example/AGENTS.md"
                  status := 200
                  contentLength := none
                  body := sLit "## Identity\n- site: evil.example" } ∧
    startsWithL (sLit "https://") (sLit "http://evil.example/AGENTS.md") = false ∧
    fetchPolicy downgradeNet (sLit "https://example.com") {} = Except.ok none := by
  decide

/-- C3 (amended): with HTTPS enforcement enabled, a non-HTTPS origin is
rejected pre-flight with a distinct caller-visible `FetchPolicyError`; a
response whose final resolved URL is non-HTTPS is never trusted — its body is
discarded and the candidate is treated as not-found (so the fallback is still
attempted), rather than being raised to the caller. -/
theorem c3_https_enforcement :
    (∀ (net : Network) (baseUrl : Str) (options : FetchPolicyOptions),
      options.enforceHttps = true →
      startsWithL (sLit "https://") (stripTrailingSlashes baseUrl) = false →
      fetchPolicy net baseUrl options = .error (.policyError (httpsErrMsg baseUrl)))
    ∧ (∀ (net : Network) (url : Str) (resp : FetchResponse),
      net url = .response resp →
      startsWithL (sLit "https://") resp.url = false →
      attemptFetch net url true = .ok none) := by
  constructor
  · intro net baseUrl options h1 h2
    simp only [fetchPolicy]
    rw [if_pos ⟨h1, by rw [h2]; exact Bool.false_ne_true⟩]
  · intro net url resp hnet hurl
    simp only [attemptFetch, hnet]
    rw [if_pos ⟨trivial, by rw [hurl]; exact Bool.false_ne_true⟩]

/-- C3 (witness): an HTTP origin is rejected pre-flight with a
`FetchPolicyError`; a downgraded response is treated as not-found for the
candidate. -/
theorem c3_witness :
    fetchPolicy downgradeNet (sLit "http://example.com") {} =
      .error (.policyError (httpsErrMsg (sLit "http://example.com"))) ∧
    attemptFetch downgradeNet (sLit "https://example.com/AGENTS.md") true =
      .ok none := by
  have h := c3_https_enforcement
  exact ⟨h.1 downgradeNet (sLit "http://example.com") {} (by decide) (by decide),
    h.2 downgradeNet (sLit "https://example.com/AGENTS.md")
      { url := sLit "http://evil.example/AGENTS.md"
        status := 200
        contentLength := none
        body := sLit "## Identity\n- site: evil.example" }
      (by decide) (by decide)⟩

/-- C6: a fetch attempt rejected with `AbortError` (the per-attempt timeout)
is treated as not-found for that candidate — discovery proceeds to the
fallback — while any other network-level failure is rethrown and propagates
out of `fetchPolicy` unmodified. -/
theorem c6_abort_vs_network_error :
    (∀ (net : Network) (url : Str) (enforce : Bool) (msg : Str),
      net url = .failure (sLit "AbortError") msg →
      attemptFetch net url enforce = .ok none)
    ∧ (∀ (net : Network) (url : Str) (enforce : Bool) (name msg : Str),
      net url = .failure name msg → name ≠ sLit "AbortError" →
      attemptFetch net url enforce = .error (.networkError name msg))
    ∧ (∀ (net : Network) (baseUrl : Str) (options : FetchPolicyOptions) (msg : Str),
      (options.enforceHttps = true →
        startsWithL (sLit "https://") (stripTrailingSlashes baseUrl) = true) →
      net (stripTrailingSlashes baseUrl ++ sLit "/AGENTS.md") =
        .failure (sLit "AbortError") msg →
      fetchPolicy net baseUrl options =
        fetchCandidates net options.enforceHttps
          [stripTrailingSlashes baseUrl ++ sLit "/.well-known/agents.md"])
    ∧ (∀ (net : Network) (baseUrl : Str) (options : FetchPolicyOptions)
        (name msg : Str),
      (options.enforceHttps = true →
        startsWithL (sLit "https://") (stripTrailingSlashes baseUrl) = true) →
      name ≠ sLit "AbortError" →
      net (stripTrailingSlashes baseUrl ++ sLit "/AGENTS.md") = .failure name msg →
      fetchPolicy net baseUrl options = .error (.networkError name msg)) := by
  have habort : ∀ (net : Network) (url : Str) (enforce : Bool) (msg : Str),
      net url = .failure (sLit "AbortError") msg →
      attemptFetch net url enforce = .ok none := by
    intro net url enforce msg hnet
    simp only [attemptFetch, hnet]
    simp
  have herr : ∀ (net : Network) (url : Str) (enforce : Bool) (name msg : Str),
      net url = .failure name msg → name ≠ sLit "AbortError" →
      attemptFetch net url enforce = .error (.networkError name msg) := by
    intro net url enforce name msg hnet hname
    simp only [attemptFetch, hnet]
    rw [if_neg hname]
  refine ⟨habort, herr, ?_, ?_⟩
  · intro net baseUrl options msg hPre hnet
    have hIf : ¬(options.enforceHttps = true ∧
        ¬ startsWithL (sLit "https://") (stripTrailingSlashes baseUrl) = true) := by
      rintro ⟨h1, h2⟩
      exact h2 (hPre h1)
    simp only [fetchPolicy]
    rw [if_neg hIf]
    simp only [agentsCandidates, fetchCandidates,
      habort net _ options.enforceHttps msg hnet]
  · intro net baseUrl options name msg hPre hname hnet
    have hIf : ¬(options.enforceHttps = true ∧
        ¬ startsWithL (sLit "https://") (stripTrailingSlashes baseUrl) = true) := by
      rintro ⟨h1, h2⟩
      exact h2 (hPre h1)
    simp only [fetchPolicy]
    rw [if_neg hIf]
    simp only [agentsCandidates, fetchCandidates,
      herr net _ options.enforceHttps name msg hnet hname]

/-- C6 (witness): a timed-out root candidate falls through to the fallback;
a connection-level failure propagates. -/
theorem c6_witness :
    attemptFetch abortPrimaryNet (sLit "https://example.com/AGENTS.md") true =
      .ok none ∧
    fetchPolicy abortPrimaryNet (sLit "https://example.com") {} =
      fetchCandidates abortPrimaryNet true
        [sLit "https://example.com/.well-known/agents.md"] ∧
    fetchPolicy dnsFailNet (sLit "https://example.com") {} =
      .error (.networkError (sLit "TypeError") (sLit "fetch failed")) := by
  have h := c6_abort_vs_network_error
  refine ⟨h.1 _ _ _ (sLit "The operation was aborted.") (by decide), ?_, ?_⟩
  · have h3 := h.2.2.1 abortPrimaryNet (sLit "https://example.com") {}
      (sLit "The operation was aborted.") (fun _ => by decide) (by decide)
    simpa using h3
  · exact h.2.2.2 dnsFailNet (sLit "https://example.com") {} (sLit "TypeError")
      (sLit "fetch failed") (fun _ => by decide) (by decide) (by decide)

/-! ### C9: the policy cache -/

/-- A concrete parsed policy for cache scenarios. -/
def c9policy : ParseResult := parse (sLit "## Identity\n- site: example.com")

/-- A cache entry fetched at time 0. -/
def c9entry : CacheEntry := { policy := c9policy, fetchedAt := 0 }

/-- C9 (counterexample): a cached entry read 24 hours 30 minutes after it was
fetched — more than the TTL but less than one hour past expiry — with a
failing refresh is NOT served: `getPolicy` returns the refresh result
(`none`) instead of the stale policy.  The claimed `min(max-age, 24h)` TTL
and one-hour stale grace window do not exist in the code: the TTL is a flat
24 hours and a stale entry is never served. -/
theorem c9_counterexample :
    getPolicy [(sLit "https://example.com", c9entry)] (maxAgeMs + 30 * 60 * 1000)
      (Except.ok none) (sLit "https://example.com") =
      Except.ok (none, [(sLit "https://example.com", c9entry)]) ∧
    maxAgeMs + 30 * 60 * 1000 - c9entry.fetchedAt < maxAgeMs + 60 * 60 * 1000 := by
  decide

/-- C9 (amended): the effective time-to-live of a cache entry is the constant
`maxAgeMs` (24 hours) — the server-declared max-age is never consulted — and
a read strictly within it serves the cached policy without refreshing; a read
at or past the TTL always delegates to the refresh: a refresh failure
propagates, a refresh yielding no policy returns `none`, and a successful
refresh replaces the entry — the stale entry is never served once the TTL has
elapsed, not even within one hour of expiry. -/
theorem c9_cache_ttl_behavior (cache : PolicyCacheMap) (now : Int)
    (fetchResult : Except FetchFailure (Option ParseResult)) (baseUrl : Str)
    (entry : CacheEntry) (hGet : mapGet cache baseUrl = some entry) :
    (now - entry.fetchedAt < maxAgeMs →
      getPolicy cache now fetchResult baseUrl = .ok (some entry.policy, cache))
    ∧ (¬ now - entry.fetchedAt < maxAgeMs →
      (getPolicy cache now fetchResult baseUrl =
        cacheRefresh cache now fetchResult baseUrl)
      ∧ (fetchResult = .ok none →
        getPolicy cache now fetchResult baseUrl = .ok (none, cache))
      ∧ (∀ e, fetchResult = .error e →
        getPolicy cache now fetchResult baseUrl = .error e)
      ∧ (∀ p, fetchResult = .ok (some p) →
        getPolicy cache now fetchResult baseUrl =
          .ok (some p, mapSet cache baseUrl { policy := p, fetchedAt := now }))) := by
  constructor
  · intro hFresh
    simp only [getPolicy, hGet]
    rw [if_pos hFresh]
  · intro hStale
    have hRefresh : getPolicy cache now fetchResult baseUrl =
        cacheRefresh cache now fetchResult baseUrl := by
      simp only [getPolicy, hGet]
      rw [if_neg hStale]
    refine ⟨hRefresh, ?_, ?_, ?_⟩
    · intro hf
      rw [hRefresh, hf]
      rfl
    · intro e hf
      rw [hRefresh, hf]
      rfl
    · intro p hf
      rw [hRefresh, hf]
      rfl

/-- C9 (witness): a fresh entry is served from the cache; the stale entry of
the counterexample delegates to the refresh. -/
theorem c9_witness :
    getPolicy [(sLit "https://example.com", c9entry)] 1000 (Except.ok none)
      (sLit "https://example.com") =
      .ok (some c9entry.policy, [(sLit "https://example.com", c9entry)]) ∧
    getPolicy [(sLit "https://example.com", c9entry)] (maxAgeMs + 30 * 60 * 1000)
      (Except.error (.networkError (sLit "TypeError") (sLit "fetch failed")))
      (sLit "https://example.com") =
      .error (.networkError (sLit "TypeError") (sLit "fetch failed")) := by
  have h1 := c9_cache_ttl_behavior [(sLit "https://example.com", c9entry)] 1000
    (Except.ok none) (sLit "https://example.com") c9entry (by decide)
  have h2 := c9_cache_ttl_behavior [(sLit "https://example.com", c9entry)]
    (maxAgeMs + 30 * 60 * 1000)
    (Except.error (.networkError (sLit "TypeError") (sLit "fetch failed")))
    (sLit "https://example.com") c9entry (by decide)
  exact ⟨h1.1 (by decide), ((h2.2 (by decide)).2.2.1 _ rfl)⟩

/-! ### C7: the trust-level invariant -/

/-- `parseIntegerValue` in terms of the pure coercion `intCoerce`: failure
appends exactly one warning, success appends none. -/
theorem parseIntegerValue_spec (raw s k : Str) (ws : List ParseWarning) :
    (intCoerce raw = none →
      parseIntegerValue raw s k ws = (none, ws ++ [intWarn s k raw]))
    ∧ (∀ v, intCoerce raw = some v → parseIntegerValue raw s k ws = (some v, ws)) := by
  constructor
  · intro h
    unfold intCoerce parseIntegerValue at h
    unfold parseIntegerValue
    cases hp : parseIntJS raw with
    | none => rfl
    | some parsed =>
      simp only [hp] at h
      by_cases hne : intToStr parsed ≠ trimL raw
      · show (if intToStr parsed ≠ trimL raw then (none, ws ++ [intWarn s k raw])
          else (some parsed, ws)) = (none, ws ++ [intWarn s k raw])
        rw [if_pos hne]
      · rw [if_neg hne] at h
        simp at h
  · intro v hv
    unfold intCoerce parseIntegerValue at hv
    unfold parseIntegerValue
    cases hp : parseIntJS raw with
    | none => simp only [hp] at hv; simp at hv
    | some parsed =>
      simp only [hp] at hv
      by_cases hne : intToStr parsed ≠ trimL raw
      · rw [if_pos hne] at hv
        simp at hv
      · rw [if_neg hne] at hv
        show (if intToStr parsed ≠ trimL raw then (none, ws ++ [intWarn s k raw])
          else (some parsed, ws)) = (some v, ws)
        rw [if_neg hne]
        simp at hv
        rw [hv]

/-- Whatever the section holds, the assembled trust level lies in `[0, 5]`. -/
theorem parseTrustRequirements_level_bounds (od : Option SectionData)
    (ws : List ParseWarning) :
    0 ≤ (parseTrustRequirements od ws).1.minimumTrustLevel ∧
    (parseTrustRequirements od ws).1.minimumTrustLevel ≤ 5 := by
  cases od with
  | none => simp [parseTrustRequirements, trustDefaults]
  | some data =>
    simp only [parseTrustRequirements]
    constructor <;>
    · repeat' split
      all_goals simp only [trustDefaults]
      all_goals omega

/-- C7: every policy produced by `parse` carries `minimumTrustLevel ∈ [0,5]`;
an in-range integer directive is taken as-is with no warning, an out-of-range
integer is clamped to the nearest bound with a warning, and a non-integer
value is dropped (the default 0 kept) with a warning — never silently
accepted outside the range. -/
theorem c7_trust_level_invariant :
    (∀ (content : Str) (p : AgentsPolicy), (parse content).policy = some p →
      0 ≤ p.trustRequirements.minimumTrustLevel ∧
        p.trustRequirements.minimumTrustLevel ≤ 5)
    ∧ (∀ (data : SectionData) (ws : List ParseWarning) (raw : Str),
      mapGet data (sLit "minimum-trust-level") = some raw →
      mapGet data (sLit "authentication") = none →
      mapGet data (sLit "authentication-methods") = none →
      (∀ v, intCoerce raw = some v → 0 ≤ v → v ≤ 5 →
        parseTrustRequirements (some data) ws =
          ({ trustDefaults with minimumTrustLevel := v }, ws))
      ∧ (∀ v, intCoerce raw = some v → (v < 0 ∨ 5 < v) →
        parseTrustRequirements (some data) ws =
          ({ trustDefaults with minimumTrustLevel := max 0 (min 5 v) },
            ws ++ [clampWarn v]))
      ∧ (intCoerce raw = none →
        parseTrustRequirements (some data) ws =
          (trustDefaults,
            ws ++ [intWarn (sLit "trust requirements")
              (sLit "minimum-trust-level") raw]))) := by
  constructor
  · intro content p hp
    by_cases hE : content = [] ∨ trimL content = []
    · unfold parse at hp
      rw [if_pos hE] at hp
      simp at hp
    · cases hid : mapGet (extractSections content) (sLit "identity") with
      | none =>
        simp only [parse] at hp
        rw [if_neg hE] at hp
        simp only [hid] at hp
        simp at hp
      | some d =>
        cases hPI : parseIdentitySection d [] with
        | mk oid ws0 =>
          cases oid with
          | none =>
            simp only [parse] at hp
            rw [if_neg hE] at hp
            simp only [hid, hPI] at hp
            simp at hp
          | some idv =>
            simp only [parse] at hp
            rw [if_neg hE] at hp
            simp only [hid, hPI] at hp
            simp only [Option.some.injEq] at hp
            have hT := congrArg AgentsPolicy.trustRequirements hp
            simp only [] at hT
            rw [← hT]
            exact parseTrustRequirements_level_bounds _ _
  · intro data ws raw hL hAuth hMeth
    have hspec := parseIntegerValue_spec raw (sLit "trust requirements")
      (sLit "minimum-trust-level") ws
    refine ⟨?_, ?_, ?_⟩
    · intro v hv h0 h5
      simp only [parseTrustRequirements, hL, hAuth, hMeth, hspec.2 v hv]
      rw [if_neg (by omega)]
    · intro v hv hout
      simp only [parseTrustRequirements, hL, hAuth, hMeth, hspec.2 v hv]
      rw [if_pos (by omega)]
    · intro hv
      simp only [parseTrustRequirements, hL, hAuth, hMeth, hspec.1 hv]

/-- The policy assembled from a file whose trust level directive reads `7`:
the level is clamped to 5. -/
def c7clampedPolicy : AgentsPolicy :=
  { identity := { site := sLit "x" }
    trustRequirements := { minimumTrustLevel := 5, authentication := sLit "none" }
    allowedActions := allowedActionsDefaults
    rateLimits := {}
    dataHandling := {}
    restrictions := { disallowedPaths := [], requireHumanApproval := [], readOnlyPaths := [] }
    agentIdentification := { requireAgentHeader := false, requireDisclosure := false } }

/-- C7 (witness): an in-range `3` is kept, `7` is clamped to `5` with a
warning, `fast` is dropped with a warning, and a full parse with level `7`
satisfies the bounds. -/
theorem c7_witness :
    parseTrustRequirements (some [(sLit "minimum-trust-level", sLit "3")]) [] =
      ({ trustDefaults with minimumTrustLevel := 3 }, []) ∧
    parseTrustRequirements (some [(sLit "minimum-trust-level", sLit "7")]) [] =
      ({ trustDefaults with minimumTrustLevel := max 0 (min 5 7) }, [clampWarn 7]) ∧
    parseTrustRequirements (some [(sLit "minimum-trust-level", sLit "fast")]) [] =
      (trustDefaults, [intWarn (sLit "trust requirements")
        (sLit "minimum-trust-level") (sLit "fast")]) ∧
    (0 ≤ c7clampedPolicy.trustRequirements.minimumTrustLevel ∧
      c7clampedPolicy.trustRequirements.minimumTrustLevel ≤ 5) := by
  have h := c7_trust_level_invariant
  have h1 := h.2 [(sLit "minimum-trust-level", sLit "3")] [] (sLit "3")
    (by decide) (by decide) (by decide)
  have h2 := h.2 [(sLit "minimum-trust-level", sLit "7")] [] (sLit "7")
    (by decide) (by decide) (by decide)
  have h3 := h.2 [(sLit "minimum-trust-level", sLit "fast")] [] (sLit "fast")
    (by decide) (by decide) (by decide)
  refine ⟨by simpa using h1.1 3 (by decide) (by decide) (by decide),
    by simpa using h2.2.1 7 (by decide) (by decide),
    by simpa using h3.2.2 (by decide),
    h.1 (sLit "## Identity\n- site: x\n\n## Trust Requirements\n- minimum-trust-level: 7")
      c7clampedPolicy (by decide)⟩


/-! ### C5: the integer coercer and rate limits -/

/-- `Char.isDigit` in terms of the code point. -/
theorem isDigit_iff (c : Char) : c.isDigit = true ↔ 48 ≤ c.toNat ∧ c.toNat ≤ 57 := by
  simp [Char.isDigit, UInt32.le_def, BitVec.le_def, Char.toNat, UInt32.toNat]

/-- Code point of a decimal digit character. -/
theorem digitChar_toNat (m : Nat) (h : m < 10) : (Char.ofNat (48 + m)).toNat = 48 + m := by
  interval_cases m <;> decide

/-- Decimal digit characters satisfy `isDigit`. -/
theorem digitChar_isDigit (m : Nat) (h : m < 10) : (Char.ofNat (48 + m)).isDigit = true := by
  interval_cases m <;> decide

/-- No JavaScript whitespace character is a decimal digit. -/
theorem jsIsWs_not_digit (c : Char) (h : jsIsWs c = true) : c.isDigit = false := by
  simp only [jsIsWs, Bool.or_eq_true, decide_eq_true_eq] at h
  by_contra hd
  rw [Bool.not_eq_false, isDigit_iff] at hd
  rcases h with h|h|h|h|h|h|h|h|h|h|h|h|h|h|h <;>
    first
      | (subst h; exact absurd hd (by decide))
      | omega

/-- Appending one digit multiplies the value by ten. -/
theorem digitsVal_append (l : Str) (c : Char) :
    digitsVal (l ++ [c]) = 10 * digitsVal l + (c.toNat - 48) := by
  simp [digitsVal, List.foldl_append]

/-- With sufficient fuel, the digit string is non-empty, all digits, and
evaluates back to the number. -/
theorem natToDigitsAux_spec (fuel : Nat) :
    ∀ n, n < fuel →
      natToDigitsAux fuel n ≠ [] ∧
      (∀ c ∈ natToDigitsAux fuel n, c.isDigit = true) ∧
      digitsVal (natToDigitsAux fuel n) = n := by
  induction fuel with
  | zero => intro n h; omega
  | succ fuel ih =>
    intro n h
    by_cases h10 : n < 10
    · simp only [natToDigitsAux, if_pos h10]
      refine ⟨by simp, ?_, ?_⟩
      · intro c hc
        simp at hc
        subst hc
        exact digitChar_isDigit n h10
      · simp [digitsVal, digitChar_toNat n h10]
    · have hdiv : n / 10 < fuel := by
        have := Nat.div_lt_self (by omega : 0 < n) (by omega : 1 < 10)
        omega
      obtain ⟨ihne, ihdig, ihval⟩ := ih (n / 10) hdiv
      have hmod : n % 10 < 10 := Nat.mod_lt _ (by omega)
      simp only [natToDigitsAux, if_neg h10]
      refine ⟨by simp, ?_, ?_⟩
      · intro c hc
        rcases List.mem_append.mp hc with h1 | h1
        · exact ihdig c h1
        · simp at h1
          subst h1
          exact digitChar_isDigit _ hmod
      · rw [digitsVal_append, ihval, digitChar_toNat _ hmod]
        omega

/-- The decimal digit string: non-empty, all digits, value-faithful. -/
theorem natToDigits_spec (n : Nat) :
    natToDigits n ≠ [] ∧ (∀ c ∈ natToDigits n, c.isDigit = true) ∧
      digitsVal (natToDigits n) = n :=
  natToDigitsAux_spec (n + 1) n (Nat.lt_succ_self n)

/-- `takeWhile` runs through a prefix that satisfies the predicate. -/
theorem takeWhile_append_of_all {p : Char → Bool} (l1 l2 : Str)
    (h : ∀ c ∈ l1, p c = true) :
    (l1 ++ l2).takeWhile p = l1 ++ l2.takeWhile p := by
  induction l1 with
  | nil => simp
  | cons c cs ih =>
    rw [List.cons_append, List.takeWhile_cons_of_pos (h c (by simp))]
    rw [ih (fun x hx => h x (List.mem_cons_of_mem _ hx)), List.cons_append]

/-- A whitespace-only string contributes no digits. -/
theorem takeWhile_digit_ws_nil (post : Str) (h : ∀ c ∈ post, jsIsWs c = true) :
    post.takeWhile Char.isDigit = [] := by
  cases post with
  | nil => rfl
  | cons c cs =>
    rw [List.takeWhile_cons_of_neg]
    rw [jsIsWs_not_digit c (h c (by simp))]
    simp

/-- Dropping leading whitespace leaves the trimmed string plus trailing
whitespace. -/
theorem dropWhile_ws_decomp (raw : Str) :
    ∃ post, raw.dropWhile jsIsWs = trimL raw ++ post ∧ ∀ c ∈ post, jsIsWs c = true := by
  refine ⟨((raw.dropWhile jsIsWs).reverse.takeWhile jsIsWs).reverse, ?_, ?_⟩
  · unfold trimL
    conv_lhs => rw [← List.reverse_reverse (raw.dropWhile jsIsWs)]
    rw [← List.reverse_append]
    rw [List.takeWhile_append_dropWhile]
  · intro c hc
    rw [List.mem_reverse] at hc
    exact List.mem_takeWhile_imp hc

/-- `parseInt` succeeds on the canonical decimal string of `n`, surrounded by
optional whitespace. -/
theorem parseIntJS_canonical (raw : Str) (n : Int) (h : trimL raw = intToStr n) :
    parseIntJS raw = some n := by
  obtain ⟨post, hdecomp, hpost⟩ := dropWhile_ws_decomp raw
  rw [h] at hdecomp
  unfold parseIntJS
  rw [hdecomp]
  by_cases hneg : n < 0
  · have hstr : intToStr n = '-' :: natToDigits n.natAbs := by
      unfold intToStr
      rw [if_pos hneg]
    obtain ⟨hne, hdig, hval⟩ := natToDigits_spec n.natAbs
    rw [hstr]
    show (if (natToDigits n.natAbs ++ post).takeWhile Char.isDigit = [] then none
      else some ((-1 : Int) *
        (digitsVal ((natToDigits n.natAbs ++ post).takeWhile Char.isDigit) : Int))) =
      some n
    rw [takeWhile_append_of_all _ _ hdig, takeWhile_digit_ws_nil post hpost,
      List.append_nil, if_neg hne, hval]
    have hn : ((-1 : Int) * (n.natAbs : Int)) = n := by omega
    rw [hn]
  · have hstr : intToStr n = natToDigits n.natAbs := by
      unfold intToStr
      rw [if_neg hneg]
    obtain ⟨hne, hdig, hval⟩ := natToDigits_spec n.natAbs
    obtain ⟨c, cs, hcc⟩ := List.exists_cons_of_ne_nil hne
    rw [hstr, hcc] at hdecomp ⊢
    rw [hcc] at hdig
    have hcdig := hdig c (List.mem_cons_self c cs)
    have h48 := (isDigit_iff c).mp hcdig
    have hc1 : ¬ c = '-' := by
      intro he
      rw [he] at h48
      exact absurd h48 (by decide)
    have hc2 : ¬ c = '+' := by
      intro he
      rw [he] at h48
      exact absurd h48 (by decide)
    show (let signed : Int × Str :=
        if c = '-' then (-1, cs ++ post)
        else if c = '+' then (1, cs ++ post) else (1, c :: (cs ++ post));
      let ds := signed.2.takeWhile Char.isDigit;
      if ds = [] then none else some (signed.1 * (digitsVal ds : Int))) = some n
    rw [if_neg hc1, if_neg hc2]
    show (if (c :: (cs ++ post)).takeWhile Char.isDigit = [] then none
      else some ((1 : Int) *
        (digitsVal ((c :: (cs ++ post)).takeWhile Char.isDigit) : Int))) = some n
    rw [show c :: (cs ++ post) = (c :: cs) ++ post from rfl,
      takeWhile_append_of_all _ _ hdig, takeWhile_digit_ws_nil post hpost,
      List.append_nil, if_neg (by rw [← hcc]; exact hne)]
    rw [← hcc, hval]
    have hn : ((1 : Int) * (n.natAbs : Int)) = n := by omega
    rw [hn]

/-- The integer coercer succeeds on exactly those raw strings whose trim is
the canonical decimal string of the result — rejecting leading zeros, stray
characters and partial numeric prefixes, and imposing no range check. -/
theorem intCoerce_iff (raw : Str) (n : Int) :
    intCoerce raw = some n ↔ trimL raw = intToStr n := by
  constructor
  · intro h
    unfold intCoerce parseIntegerValue at h
    cases hp : parseIntJS raw with
    | none => simp only [hp] at h; simp at h
    | some parsed =>
      simp only [hp] at h
      by_cases hne : intToStr parsed ≠ trimL raw
      · rw [if_pos hne] at h
        simp at h
      · rw [if_neg hne] at h
        simp at h
        push_neg at hne
        subst h
        exact hne.symm
  · intro h
    have hp := parseIntJS_canonical raw n h
    unfold intCoerce parseIntegerValue
    simp only [hp]
    rw [if_neg (not_ne_iff.mpr h.symm)]

/-- C5: the integer coercer succeeds exactly on raw strings whose base-10
parse re-stringifies to the trimmed input (so leading zeros, stray characters
and partial numeric prefixes are rejected) and returns the integer with no
range check; a rate-limit directive whose value fails the coercion leaves its
field absent (never `0`) and contributes a warning. -/
theorem c5_integer_coercion :
    (∀ (raw : Str) (n : Int), intCoerce raw = some n ↔ trimL raw = intToStr n)
    ∧ (∀ (data : SectionData) (ws : List ParseWarning) (raw : Str),
      (mapGet data (sLit "requests-per-minute") = some raw → intCoerce raw = none →
        (parseRateLimits (some data) ws).1.requestsPerMinute = none ∧
        intWarn (sLit "rate limits") (sLit "requests-per-minute") raw ∈
          (parseRateLimits (some data) ws).2)
      ∧ (mapGet data (sLit "requests-per-hour") = some raw → intCoerce raw = none →
        (parseRateLimits (some data) ws).1.requestsPerHour = none ∧
        intWarn (sLit "rate limits") (sLit "requests-per-hour") raw ∈
          (parseRateLimits (some data) ws).2)
      ∧ (mapGet data (sLit "concurrent-sessions") = some raw → intCoerce raw = none →
        (parseRateLimits (some data) ws).1.concurrentSessions = none ∧
        intWarn (sLit "rate limits") (sLit "concurrent-sessions") raw ∈
          (parseRateLimits (some data) ws).2)) := by
  refine ⟨intCoerce_iff, ?_⟩
  intro data ws raw
  refine ⟨?_, ?_, ?_⟩
  · intro hL hco
    have hspec := (parseIntegerValue_spec raw (sLit "rate limits")
      (sLit "requests-per-minute") []).1 hco
    have hfield : rateLimitField data (sLit "requests-per-minute") =
        (none, [intWarn (sLit "rate limits") (sLit "requests-per-minute") raw]) := by
      unfold rateLimitField
      simp only [hL, hspec, List.nil_append]
    constructor
    · simp only [parseRateLimits, hfield]
    · simp only [parseRateLimits, hfield]
      simp
  · intro hL hco
    have hspec := (parseIntegerValue_spec raw (sLit "rate limits")
      (sLit "requests-per-hour") []).1 hco
    have hfield : rateLimitField data (sLit "requests-per-hour") =
        (none, [intWarn (sLit "rate limits") (sLit "requests-per-hour") raw]) := by
      unfold rateLimitField
      simp only [hL, hspec, List.nil_append]
    constructor
    · simp only [parseRateLimits, hfield]
    · simp only [parseRateLimits, hfield]
      simp
  · intro hL hco
    have hspec := (parseIntegerValue_spec raw (sLit "rate limits")
      (sLit "concurrent-sessions") []).1 hco
    have hfield : rateLimitField data (sLit "concurrent-sessions") =
        (none, [intWarn (sLit "rate limits") (sLit "concurrent-sessions") raw]) := by
      unfold rateLimitField
      simp only [hL, hspec, List.nil_append]
    constructor
    · simp only [parseRateLimits, hfield]
    · simp only [parseRateLimits, hfield]
      simp

/-- C5 (witness): `" 42 "` coerces to 42, `"042"` does not coerce to 42, and
`requests-per-minute: fast` leaves the field absent with a warning. -/
theorem c5_witness :
    intCoerce (sLit " 42 ") = some 42 ∧
    intCoerce (sLit "042") ≠ some 42 ∧
    (parseRateLimits (some [(sLit "requests-per-minute", sLit "fast")])
      []).1.requestsPerMinute = none ∧
    intWarn (sLit "rate limits") (sLit "requests-per-minute") (sLit "fast") ∈
      (parseRateLimits (some [(sLit "requests-per-minute", sLit "fast")]) []).2 := by
  have hA := c5_integer_coercion.1
  have hB := (c5_integer_coercion.2 [(sLit "requests-per-minute", sLit "fast")] []
    (sLit "fast")).1 (by decide) (by decide)
  exact ⟨(hA (sLit " 42 ") 42).mpr (by decide),
    fun h => absurd ((hA (sLit "042") 42).mp h) (by decide),
    hB.1, hB.2⟩


theorem charLe_iff (a b : Char) : a ≤ b ↔ a.toNat ≤ b.toNat := by
  simp [Char.le_def, UInt32.le_def, BitVec.le_def, Char.toNat, UInt32.toNat]

theorem char_toNat_inj {c d : Char} (h : c.toNat = d.toNat) : c = d := by
  have h2 := congrArg Char.ofNat h
  rwa [Char.ofNat_toNat, Char.ofNat_toNat] at h2

/-- Predicate: no ASCII uppercase letter occurs in the string. -/
def NoUpper (l : Str) : Prop := ∀ c ∈ l, ¬('A' ≤ c ∧ c ≤ 'Z')

theorem toLower_not_upper (c : Char) : ¬('A' ≤ c.toLower ∧ c.toLower ≤ 'Z') := by
  unfold Char.toLower
  by_cases h : c.toNat ≥ 65 ∧ c.toNat ≤ 90
  · rw [if_pos h]
    obtain ⟨h1, h2⟩ := h
    set n := c.toNat with hn
    interval_cases n <;> decide
  · rw [if_neg h]
    intro hc
    apply h
    rw [charLe_iff, charLe_iff] at hc
    have ha : ('A').toNat = 65 := rfl
    have hz : ('Z').toNat = 90 := rfl
    omega

theorem toUpper_lower_spec (c : Char) (h1 : 'a' ≤ c) (h2 : c ≤ 'z') :
    ('A' ≤ c.toUpper ∧ c.toUpper ≤ 'Z') ∧ c.toUpper.toLower = c := by
  rw [charLe_iff] at h1 h2
  have ha : ('a').toNat = 97 := rfl
  have hz : ('z').toNat = 122 := rfl
  rw [ha] at h1
  rw [hz] at h2
  set n := c.toNat with hn
  interval_cases n <;>
    (first
      | (have hc : c = 'a' := char_toNat_inj (by rw [← hn]; decide); subst hc; decide)
      | (have hc : c = 'b' := char_toNat_inj (by rw [← hn]; decide); subst hc; decide)
      | (have hc : c = 'c' := char_toNat_inj (by rw [← hn]; decide); subst hc; decide)
      | (have hc : c = 'd' := char_toNat_inj (by rw [← hn]; decide); subst hc; decide)
      | (have hc : c = 'e' := char_toNat_inj (by rw [← hn]; decide); subst hc; decide)
      | (have hc : c = 'f' := char_toNat_inj (by rw [← hn]; decide); subst hc; decide)
      | (have hc : c = 'g' := char_toNat_inj (by rw [← hn]; decide); subst hc; decide)
      | (have hc : c = 'h' := char_toNat_inj (by rw [← hn]; decide); subst hc; decide)
      | (have hc : c = 'i' := char_toNat_inj (by rw [← hn]; decide); subst hc; decide)
      | (have hc : c = 'j' := char_toNat_inj (by rw [← hn]; decide); subst hc; decide)
      | (have hc : c = 'k' := char_toNat_inj (by rw [← hn]; decide); subst hc; decide)
      | (have hc : c = 'l' := char_toNat_inj (by rw [← hn]; decide); subst hc; decide)
      | (have hc : c = 'm' := char_toNat_inj (by rw [← hn]; decide); subst hc; decide)
      | (have hc : c = 'n' := char_toNat_inj (by rw [← hn]; decide); subst hc; decide)
      | (have hc : c = 'o' := char_toNat_inj (by rw [← hn]; decide); subst hc; decide)
      | (have hc : c = 'p' := char_toNat_inj (by rw [← hn]; decide); subst hc; decide)
      | (have hc : c = 'q' := char_toNat_inj (by rw [← hn]; decide); subst hc; decide)
      | (have hc : c = 'r' := char_toNat_inj (by rw [← hn]; decide); subst hc; decide)
      | (have hc : c = 's' := char_toNat_inj (by rw [← hn]; decide); subst hc; decide)
      | (have hc : c = 't' := char_toNat_inj (by rw [← hn]; decide); subst hc; decide)
      | (have hc : c = 'u' := char_toNat_inj (by rw [← hn]; decide); subst hc; decide)
      | (have hc : c = 'v' := char_toNat_inj (by rw [← hn]; decide); subst hc; decide)
      | (have hc : c = 'w' := char_toNat_inj (by rw [← hn]; decide); subst hc; decide)
      | (have hc : c = 'x' := char_toNat_inj (by rw [← hn]; decide); subst hc; decide)
      | (have hc : c = 'y' := char_toNat_inj (by rw [← hn]; decide); subst hc; decide)
      | (have hc : c = 'z' := char_toNat_inj (by rw [← hn]; decide); subst hc; decide))


def camelDecode : Str → Str
  | [] => []
  | c :: rest =>
    if 'A' ≤ c ∧ c ≤ 'Z' then '-' :: c.toLower :: camelDecode rest
    else c :: camelDecode rest

theorem kebabToCamel_cons_ne (c : Char) (rest : Str)
    (hne : ∀ c2 rest2, c = '-' → rest = c2 :: rest2 → False) :
    kebabToCamel (c :: rest) = c :: kebabToCamel rest := by
  have hc : rest = [] ∨ ¬ c = '-' := by
    cases rest with
    | nil => exact Or.inl rfl
    | cons c2 rest2 => exact Or.inr (fun h => hne c2 rest2 h rfl)
  rw [kebabToCamel.eq_def]
  split
  · rename_i heq
    simp at heq
  · rename_i heq
    obtain ⟨h1, h2⟩ := List.cons.inj heq
    rcases hc with hnil | hcdash
    · rw [hnil] at h2
      simp at h2
    · exact absurd h1 hcdash
  · rename_i heq
    obtain ⟨h1, h2⟩ := List.cons.inj heq
    subst h1
    subst h2
    rfl

theorem kebabToCamel_inv (k : Str) (h : NoUpper k) :
    camelDecode (kebabToCamel k) = k := by
  induction k using kebabToCamel.induct with
  | case1 => rfl
  | case2 c rest hlc ih =>
    have hrest : NoUpper rest := fun x hx => h x (by simp [hx])
    have hk : kebabToCamel ('-' :: c :: rest) = c.toUpper :: kebabToCamel rest := by
      simp only [kebabToCamel]
      rw [if_pos hlc]
    obtain ⟨⟨hA, hZ⟩, hta⟩ := toUpper_lower_spec c hlc.1 hlc.2
    rw [hk]
    simp only [camelDecode]
    rw [if_pos ⟨hA, hZ⟩, hta, ih hrest]
  | case3 c rest hlc ih =>
    have hrest : NoUpper (c :: rest) := fun x hx => h x (by simp at hx; simp [hx])
    have hk : kebabToCamel ('-' :: c :: rest) = '-' :: kebabToCamel (c :: rest) := by
      simp only [kebabToCamel]
      rw [if_neg hlc]
    rw [hk]
    simp only [camelDecode]
    rw [if_neg (by decide), ih hrest]
  | case4 c rest hne ih =>
    have hrest : NoUpper rest := fun x hx => h x (by simp [hx])
    rw [kebabToCamel_cons_ne c rest hne]
    simp only [camelDecode]
    rw [if_neg (h c (by simp)), ih hrest]


theorem parseBooleanValue_spec (raw s k : Str) (ws : List ParseWarning) :
    (boolCoerce raw = none →
      parseBooleanValue raw s k ws = (none, ws ++ [boolWarn s k raw]))
    ∧ (∀ b, boolCoerce raw = some b → parseBooleanValue raw s k ws = (some b, ws)) := by
  unfold boolCoerce parseBooleanValue
  by_cases h1 : [sLit "true", sLit "yes", sLit "1", sLit "on"].contains (trimL (toLowerL raw))
  · rw [if_pos h1, if_pos h1]
    exact ⟨fun h => by simp at h, fun b hb => by simp at hb; rw [hb]⟩
  · rw [if_neg h1, if_neg h1]
    by_cases h2 : [sLit "false", sLit "no", sLit "0", sLit "off"].contains (trimL (toLowerL raw))
    · rw [if_pos h2, if_pos h2]
      exact ⟨fun h => by simp at h, fun b hb => by simp at hb; rw [hb]⟩
    · rw [if_neg h2, if_neg h2]
      exact ⟨fun _ => rfl, fun b hb => by simp at hb⟩

theorem mapSet_keys {α : Type} (m : List (Str × α)) (k : Str) (v : α) :
    (mapSet m k v).map Prod.fst =
      if m.any (fun p => p.1 = k) then m.map Prod.fst
      else m.map Prod.fst ++ [k] := by
  unfold mapSet
  by_cases h : m.any (fun p => p.1 = k)
  · rw [if_pos h, if_pos h, List.map_map]
    apply List.map_congr_left
    intro p _
    by_cases hp : p.1 = k
    · simp [hp]
    · simp [hp]
  · rw [if_neg h, if_neg h, List.map_append]
    rfl

theorem mapGet_mapSet_eq {α : Type} (m : List (Str × α)) (k : Str) (v : α) :
    mapGet (mapSet m k v) k = some v := by
  unfold mapSet
  by_cases h : m.any (fun p => p.1 = k)
  · rw [if_pos h]
    rw [List.any_eq_true] at h
    obtain ⟨p, hp, hpk⟩ := h
    simp only [decide_eq_true_eq] at hpk
    induction m with
    | nil => simp at hp
    | cons q m ih =>
      rcases List.mem_cons.mp hp with h1 | h1
      · subst h1
        simp only [List.map_cons, if_pos hpk]
        rw [mapGet_cons, if_pos rfl]
      · by_cases hq : q.1 = k
        · simp only [List.map_cons, if_pos hq]
          rw [mapGet_cons, if_pos rfl]
        · simp only [List.map_cons, if_neg hq]
          rw [show (q : Str × α) = (q.1, q.2) from rfl, mapGet_cons, if_neg hq]
          exact ih h1
  · rw [if_neg h]
    induction m with
    | nil => rw [List.nil_append, mapGet_cons, if_pos rfl]
    | cons q m ih =>
      have hq : ¬ q.1 = k := by
        intro hh
        exact h (List.any_eq_true.mpr ⟨q, by simp, by simp [hh]⟩)
      have hm : ¬ m.any (fun p => p.1 = k) = true := by
        intro hh
        rw [List.any_eq_true] at hh
        obtain ⟨p, hp, hpk⟩ := hh
        exact h (List.any_eq_true.mpr ⟨p, by simp [hp], hpk⟩)
      rw [List.cons_append, show (q : Str × α) = (q.1, q.2) from rfl, mapGet_cons,
        if_neg hq]
      exact ih hm

theorem mapGet_mapSet_cases {α : Type} (m : List (Str × α)) (k k' : Str) (v : α)
    (d : α) (h : mapGet (mapSet m k v) k' = some d) :
    d = v ∨ mapGet m k' = some d := by
  by_cases hk : k' = k
  · subst hk
    rw [mapGet_mapSet_eq] at h
    exact Or.inl (Option.some.inj h).symm
  · rw [mapGet_mapSet_ne m k k' v hk] at h
    exact Or.inr h


theorem toLowerL_noUpper (l : Str) : NoUpper (toLowerL l) := by
  intro c hc
  unfold toLowerL at hc
  rw [List.mem_map] at hc
  obtain ⟨c0, _, hc0⟩ := hc
  rw [← hc0]
  exact toLower_not_upper c0

/-- `mapSet` with a lowercase key preserves distinct lowercase keys. -/
theorem mapSet_keys_invariant (data : SectionData) (k v : Str)
    (h1 : (data.map Prod.fst).Nodup) (h2 : ∀ x ∈ data.map Prod.fst, NoUpper x)
    (hk : NoUpper k) :
    ((mapSet data k v).map Prod.fst).Nodup ∧
    ∀ x ∈ (mapSet data k v).map Prod.fst, NoUpper x := by
  rw [mapSet_keys]
  split
  · exact ⟨h1, h2⟩
  · rename_i hany
    constructor
    · rw [List.nodup_append]
      refine ⟨h1, List.nodup_singleton _, ?_⟩
      intro a ha hb
      simp at hb
      subst hb
      rw [List.mem_map] at ha
      obtain ⟨p, hp, hpa⟩ := ha
      exact hany (List.any_eq_true.mpr ⟨p, hp, by simp [hpa]⟩)
    · intro x hx
      rcases List.mem_append.mp hx with hmem | hmem
      · exact h2 x hmem
      · simp at hmem
        subst hmem
        exact hk

/-- One `parseKeyValueLines` step preserves distinct lowercase keys. -/
theorem keyValueStep_keys (data : SectionData) (line : Str)
    (h1 : (data.map Prod.fst).Nodup) (h2 : ∀ k ∈ data.map Prod.fst, NoUpper k) :
    ((keyValueStep data line).map Prod.fst).Nodup ∧
    ∀ k ∈ (keyValueStep data line).map Prod.fst, NoUpper k := by
  simp only [keyValueStep]
  split
  · exact ⟨h1, h2⟩
  · split
    · exact ⟨h1, h2⟩
    · split
      · split
        · exact ⟨h1, h2⟩
        · split
          · exact mapSet_keys_invariant data _ _ h1 h2 (toLowerL_noUpper _)
          · exact ⟨h1, h2⟩
      · exact ⟨h1, h2⟩

/-- The keys produced by `parseKeyValueLines` are distinct and contain no
uppercase ASCII letter. -/
theorem parseKeyValueLines_keys (lines : List Str) :
    ((parseKeyValueLines lines).map Prod.fst).Nodup ∧
    ∀ k ∈ (parseKeyValueLines lines).map Prod.fst, NoUpper k := by
  unfold parseKeyValueLines
  suffices hgen : ∀ (data : SectionData),
      (data.map Prod.fst).Nodup → (∀ k ∈ data.map Prod.fst, NoUpper k) →
      ((lines.foldl keyValueStep data).map Prod.fst).Nodup ∧
      ∀ k ∈ (lines.foldl keyValueStep data).map Prod.fst, NoUpper k by
    exact hgen [] (by simp) (by simp)
  induction lines with
  | nil => intro data hd1 hd2; exact ⟨hd1, hd2⟩
  | cons line rest ih =>
    intro data hd1 hd2
    rw [List.foldl_cons]
    obtain ⟨hs1, hs2⟩ := keyValueStep_keys data line hd1 hd2
    exact ih _ hs1 hs2


/-- Every section body stored by the extractor is a `parseKeyValueLines`
image. -/
theorem extractSections_values (content : Str) (name : Str) (d : SectionData)
    (h : mapGet (extractSections content) name = some d) :
    ∃ ls, d = parseKeyValueLines ls := by
  unfold extractSections at h
  suffices hgen : ∀ (lines : List Str) (cur : Option Str) (curLines : List Str)
      (acc : SectionsMap),
      (∀ nm dd, mapGet acc nm = some dd → ∃ ls, dd = parseKeyValueLines ls) →
      ∀ nm dd, mapGet (extractLoop lines cur curLines acc) nm = some dd →
        ∃ ls, dd = parseKeyValueLines ls by
    exact hgen _ _ _ _ (fun nm dd hh => by simp [mapGet] at hh) name d h
  intro lines
  induction lines with
  | nil =>
    intro cur curLines acc hacc nm dd hh
    cases cur with
    | none => exact hacc nm dd hh
    | some nm2 =>
      simp only [extractLoop, flushSection] at hh
      rcases mapGet_mapSet_cases acc nm2 nm (parseKeyValueLines curLines) dd hh with
        h1 | h1
      · exact ⟨curLines, h1⟩
      · exact hacc nm dd h1
  | cons line rest ih =>
    intro cur curLines acc hacc nm dd hh
    simp only [extractLoop] at hh
    cases hm : matchSectionHeading line with
    | some nm2 =>
      rw [hm] at hh
      apply ih _ _ _ ?_ nm dd hh
      intro nm3 dd3 hh3
      cases cur with
      | none => exact hacc nm3 dd3 hh3
      | some nm4 =>
        simp only [flushSection] at hh3
        rcases mapGet_mapSet_cases acc nm4 nm3 (parseKeyValueLines curLines) dd3 hh3
          with h1 | h1
        · exact ⟨curLines, h1⟩
        · exact hacc nm3 dd3 h1
    | none =>
      rw [hm] at hh
      cases cur with
      | none => exact ih _ _ _ hacc nm dd hh
      | some nm4 => exact ih _ _ _ hacc nm dd hh


/-- The ten standard keys decode back from their camel names. -/
theorem standard_camel_decode :
    ∀ k ∈ standardActionKeys, camelDecode (keyMapLookup k) = k := by decide

/-- The defaults record the documented default of each standard action. -/
theorem standard_default_value :
    ∀ k ∈ standardActionKeys,
      mapGet allowedActionsDefaults (keyMapLookup k) =
        some (if k = sLit "read-content" then true else false) := by decide

/-- The default keys are exactly the camel names of the standard keys. -/
theorem defaults_keys_eq :
    allowedActionsDefaults.map Prod.fst = standardActionKeys.map keyMapLookup := by
  decide

/-- A key outside the standard table goes through `kebabToCamel`. -/
theorem keyMapLookup_custom (k : Str) (h : k ∉ standardActionKeys) :
    keyMapLookup k = kebabToCamel k := by
  simp only [standardActionKeys, List.mem_cons, List.not_mem_nil, or_false,
    not_or] at h
  obtain ⟨h1, h2, h3, h4, h5, h6, h7, h8, h9, h10⟩ := h
  unfold keyMapLookup
  rw [if_neg h1, if_neg h2, if_neg h3, if_neg h4, if_neg h5, if_neg h6, if_neg h7,
    if_neg h8, if_neg h9, if_neg h10]


/-- The standard kebab keys contain no uppercase letters. -/
theorem standard_noUpper : ∀ k ∈ standardActionKeys, NoUpper k := by
  unfold NoUpper
  decide

/-- On lowercase keys, the key mapping is injective. -/
theorem keyMapLookup_inj (k1 k2 : Str) (h1 : NoUpper k1) (h2 : NoUpper k2)
    (he : keyMapLookup k1 = keyMapLookup k2) : k1 = k2 := by
  by_cases m1 : k1 ∈ standardActionKeys <;> by_cases m2 : k2 ∈ standardActionKeys
  · have d1 := standard_camel_decode k1 m1
    have d2 := standard_camel_decode k2 m2
    rw [← d1, ← d2, he]
  · rw [keyMapLookup_custom k2 m2] at he
    have d1 := standard_camel_decode k1 m1
    rw [he, kebabToCamel_inv k2 h2] at d1
    exact d1.symm
  · rw [keyMapLookup_custom k1 m1] at he
    have d2 := standard_camel_decode k2 m2
    rw [← he, kebabToCamel_inv k1 h1] at d2
    exact d2
  · rw [keyMapLookup_custom k1 m1, keyMapLookup_custom k2 m2] at he
    rw [← kebabToCamel_inv k1 h1, ← kebabToCamel_inv k2 h2, he]

/-- The model key of a custom lowercase key is not a default key. -/
theorem custom_not_in_defaults (k : Str) (h1 : NoUpper k)
    (hm : k ∉ standardActionKeys) :
    keyMapLookup k ∉ allowedActionsDefaults.map Prod.fst := by
  rw [defaults_keys_eq]
  intro hmem
  rw [List.mem_map] at hmem
  obtain ⟨s, hs, hsk⟩ := hmem
  have heq := keyMapLookup_inj s k (standard_noUpper s hs) h1 hsk
  rw [heq] at hs
  exact hm hs

/-- With nodup keys, a key determines its value. -/
theorem nodup_keys_value_unique {α : Type} (m : List (Str × α))
    (hnd : (m.map Prod.fst).Nodup) (k : Str) (a b : α)
    (ha : (k, a) ∈ m) (hb : (k, b) ∈ m) : a = b := by
  induction m with
  | nil => simp at ha
  | cons p rest ih =>
    simp only [List.map_cons, List.nodup_cons] at hnd
    rcases List.mem_cons.mp ha with h1 | h1 <;> rcases List.mem_cons.mp hb with h2 | h2
    · rw [← h1] at h2
      exact (Prod.mk.injEq _ _ _ _ ▸ h2).2.symm
    · exfalso
      apply hnd.1
      rw [List.mem_map]
      exact ⟨(k, b), h2, by rw [← h1]⟩
    · exfalso
      apply hnd.1
      rw [List.mem_map]
      exact ⟨(k, a), h1, by rw [← h2]⟩
    · exact ih hnd.2 h1 h2

/-- A failing directive leaves the actions map unchanged and appends its
warning. -/
theorem allowedActionsStep_fail (acc : List (Str × Bool) × List ParseWarning)
    (kv : Str × Str) (hfail : boolCoerce kv.2 = none) :
    allowedActionsStep acc kv =
      (acc.1, acc.2 ++ [boolWarn (sLit "allowed actions") kv.1 kv.2]) := by
  unfold allowedActionsStep
  rw [(parseBooleanValue_spec kv.2 (sLit "allowed actions") kv.1 acc.2).1 hfail]

/-- One allowed-actions step only appends warnings. -/
theorem allowedActionsStep_warnings_ext
    (acc : List (Str × Bool) × List ParseWarning) (kv : Str × Str) :
    ∃ t, (allowedActionsStep acc kv).2 = acc.2 ++ t := by
  unfold allowedActionsStep
  cases hb : boolCoerce kv.2 with
  | none =>
    rw [(parseBooleanValue_spec kv.2 (sLit "allowed actions") kv.1 acc.2).1 hb]
    exact ⟨[boolWarn (sLit "allowed actions") kv.1 kv.2], rfl⟩
  | some b =>
    rw [(parseBooleanValue_spec kv.2 (sLit "allowed actions") kv.1 acc.2).2 b hb]
    exact ⟨[], (List.append_nil _).symm⟩

/-- The allowed-actions fold only appends warnings. -/
theorem foldl_allowedActions_warnings_ext (entries : List (Str × Str)) :
    ∀ acc, ∃ t, (entries.foldl allowedActionsStep acc).2 = acc.2 ++ t := by
  induction entries with
  | nil => intro acc; exact ⟨[], by simp⟩
  | cons kv rest ih =>
    intro acc
    rw [List.foldl_cons]
    obtain ⟨t1, ht1⟩ := allowedActionsStep_warnings_ext acc kv
    obtain ⟨t2, ht2⟩ := ih (allowedActionsStep acc kv)
    exact ⟨t1 ++ t2, by rw [ht2, ht1, List.append_assoc]⟩

/-- A failing directive's warning occurs in the fold's warnings. -/
theorem foldl_allowedActions_warn_mem :
    ∀ (entries : List (Str × Str)) (acc : List (Str × Bool) × List ParseWarning)
      (rawKey rawValue : Str), (rawKey, rawValue) ∈ entries →
      boolCoerce rawValue = none →
      boolWarn (sLit "allowed actions") rawKey rawValue ∈
        (entries.foldl allowedActionsStep acc).2 := by
  intro entries
  induction entries with
  | nil => intro acc rawKey rawValue hmem; simp at hmem
  | cons kv rest ih =>
    intro acc rawKey rawValue hmem hfail
    rw [List.foldl_cons]
    rcases List.mem_cons.mp hmem with h1 | h1
    · obtain ⟨t, ht⟩ := foldl_allowedActions_warnings_ext rest (allowedActionsStep acc kv)
      rw [ht, ← h1, allowedActionsStep_fail acc (rawKey, rawValue) hfail]
      simp
    · exact ih _ rawKey rawValue h1 hfail

/-- Directives that never successfully write a model key leave its lookup
unchanged. -/
theorem foldl_allowedActions_get :
    ∀ (entries : List (Str × Str)) (acc : List (Str × Bool) × List ParseWarning)
      (ck : Str),
      (∀ kv ∈ entries, keyMapLookup kv.1 = ck → boolCoerce kv.2 = none) →
      mapGet (entries.foldl allowedActionsStep acc).1 ck = mapGet acc.1 ck := by
  intro entries
  induction entries with
  | nil => intro acc ck _; rfl
  | cons kv rest ih =>
    intro acc ck h
    rw [List.foldl_cons,
      ih _ ck (fun kv2 hm => h kv2 (List.mem_cons_of_mem _ hm))]
    unfold allowedActionsStep
    cases hb : boolCoerce kv.2 with
    | none =>
      rw [(parseBooleanValue_spec kv.2 (sLit "allowed actions") kv.1 acc.2).1 hb]
    | some b =>
      rw [(parseBooleanValue_spec kv.2 (sLit "allowed actions") kv.1 acc.2).2 b hb]
      show mapGet (mapSet acc.1 (keyMapLookup kv.1) b) ck = mapGet acc.1 ck
      apply mapGet_mapSet_ne
      intro hck
      have := h kv (List.mem_cons_self _ _) hck.symm
      rw [this] at hb
      exact Option.noConfusion hb


/-- C10: for every directive of the Allowed Actions section whose value is not
a recognized boolean token, the section's warning for that directive is
recorded; if the raw key is one of the ten standard action keys, the assembled
actions map still binds its model key to the documented default (`true` only
for `read-content`); if the raw key is custom, its model key is entirely
absent from the assembled map. -/
theorem c10_allowed_actions_fallback
    (content : Str) (data : SectionData) (ws : List ParseWarning)
    (hsec : mapGet (extractSections content) (sLit "allowed actions") = some data)
    (rawKey rawValue : Str) (hmem : (rawKey, rawValue) ∈ data)
    (hfail : boolCoerce rawValue = none) :
    boolWarn (sLit "allowed actions") rawKey rawValue ∈
      (parseAllowedActions (some data) ws).2 ∧
    (rawKey ∈ standardActionKeys →
      mapGet (parseAllowedActions (some data) ws).1 (keyMapLookup rawKey) =
        some (if rawKey = sLit "read-content" then true else false)) ∧
    (rawKey ∉ standardActionKeys →
      mapGet (parseAllowedActions (some data) ws).1 (keyMapLookup rawKey) = none) := by
  obtain ⟨ls, hls⟩ := extractSections_values content (sLit "allowed actions") data hsec
  have hkeys := parseKeyValueLines_keys ls
  rw [← hls] at hkeys
  obtain ⟨hnd, hnu⟩ := hkeys
  have hrawNoUpper : NoUpper rawKey :=
    hnu rawKey (List.mem_map.mpr ⟨(rawKey, rawValue), hmem, rfl⟩)
  have hside : ∀ kv ∈ data, keyMapLookup kv.1 = keyMapLookup rawKey →
      boolCoerce kv.2 = none := by
    intro kv hkv heq
    obtain ⟨k1, v1⟩ := kv
    have hk1NoUpper : NoUpper k1 := hnu k1 (List.mem_map.mpr ⟨(k1, v1), hkv, rfl⟩)
    have hkeq : k1 = rawKey := keyMapLookup_inj k1 rawKey hk1NoUpper hrawNoUpper heq
    have hveq : v1 = rawValue := by
      apply nodup_keys_value_unique data hnd rawKey
      · rw [← hkeq]
        exact hkv
      · exact hmem
    rw [hveq]
    exact hfail
  have hget : mapGet (parseAllowedActions (some data) ws).1 (keyMapLookup rawKey) =
      mapGet allowedActionsDefaults (keyMapLookup rawKey) := by
    show mapGet (data.foldl allowedActionsStep (allowedActionsDefaults, ws)).1
      (keyMapLookup rawKey) = mapGet allowedActionsDefaults (keyMapLookup rawKey)
    exact foldl_allowedActions_get data (allowedActionsDefaults, ws)
      (keyMapLookup rawKey) hside
  refine ⟨?_, ?_, ?_⟩
  · exact foldl_allowedActions_warn_mem data (allowedActionsDefaults, ws)
      rawKey rawValue hmem hfail
  · intro hstd
    rw [hget]
    exact standard_default_value rawKey hstd
  · intro hcustom
    rw [hget]
    exact mapGet_eq_none _ _ (custom_not_in_defaults rawKey hrawNoUpper hcustom)

/-- Concrete Allowed Actions input exercising both fallback cases. -/
def c10content : Str :=
  sLit "## Allowed Actions\n- make-purchases: maybe\n- custom-thing: maybe"

/-- The section data that input parses to. -/
def c10data : SectionData :=
  [(sLit "make-purchases", sLit "maybe"), (sLit "custom-thing", sLit "maybe")]

/-- Witness for C10 at a concrete input: both the standard key
`make-purchases` and the custom key `custom-thing`, with the unrecognized
value `maybe`, produce a warning; the standard key stays at its default
`false` while the custom key is absent. -/
theorem c10_witness :
    (boolWarn (sLit "allowed actions") (sLit "make-purchases") (sLit "maybe") ∈
        (parseAllowedActions (some c10data) []).2 ∧
      mapGet (parseAllowedActions (some c10data) []).1
        (keyMapLookup (sLit "make-purchases")) = some false) ∧
    (boolWarn (sLit "allowed actions") (sLit "custom-thing") (sLit "maybe") ∈
        (parseAllowedActions (some c10data) []).2 ∧
      mapGet (parseAllowedActions (some c10data) []).1
        (keyMapLookup (sLit "custom-thing")) = none) := by
  have h1 := c10_allowed_actions_fallback c10content c10data []
    (by decide) (sLit "make-purchases") (sLit "maybe") (by decide) (by decide)
  have h2 := c10_allowed_actions_fallback c10content c10data []
    (by decide) (sLit "custom-thing") (sLit "maybe") (by decide) (by decide)
  refine ⟨⟨h1.1, ?_⟩, ⟨h2.1, h2.2.2 (by decide)⟩⟩
  exact (h1.2.1 (by decide)).trans (by decide)

end AgentsMd
